import Mathlib

/-!
# Quotation revision engine and row-indexed mutations (`src/server.js`)

A shallow embedding of the handler `app.post('/add_quotation', ...)` and of the
JavaScript primitives it calls, followed by `getRecords` on raw sheet values and the
handlers of `GET /revisions/:quotation_no`, `POST /update_quotation_status`,
`DELETE /delete_category/:category_id` and `PUT /update_category/:category_id`, which
return the requests they send to the store.

Conventions of the embedding.

* A JSON value of the request body is a `JsVal`: absent (`undefined`), `null`, a string,
  or an integer number (the numbers whose `String(...)` is their decimal numeral).
  Numbers are mathematical integers, which JavaScript represents exactly below `2^53`;
  `newRevBinary64` is the revision sum in binary64, equal to `newRev` on that range.
* A record produced by `getRecords` is a structure with one string per column: the two
  sheets carry the columns in the order in which the handler writes its rows, and
  `getRecords` projects an empty or missing cell to `''`.
* The clock (`new Date()`) and the Unicode lower-casing table behind
  `String.prototype.toLowerCase` are inputs, gathered in `Env`.
* The handler returns what it reports and the rows it hands to `values.append`.
* Between two calls the store returns an appended cell as text. `cellText` is the store
  that keeps what it is given; statements that depend on other cells than the
  quotation_no and the rev take the store's read-back as a parameter.
-/

namespace Quotation

/-! ## JavaScript values and string primitives -/

/-- A JSON scalar of the request body; `undefined` is an absent property. -/
inductive JsVal where
  | undefined : JsVal
  | null : JsVal
  | str (s : String) : JsVal
  | num (n : Int) : JsVal
  deriving DecidableEq

/-- The apostrophe, the store's literal-text marker. -/
def apostrophe : Char := Char.ofNat 39

/-- JavaScript `String(v)`. -/
def JsVal.toStr : JsVal → String
  | .undefined => "undefined"
  | .null => "null"
  | .str s => s
  | .num n => toString n

/-- JavaScript truthiness (`!!v`). -/
def JsVal.truthy : JsVal → Bool
  | .undefined => false
  | .null => false
  | .str s => s != ""
  | .num n => n != 0

/-- JavaScript `a || b`. -/
def JsVal.or (a b : JsVal) : JsVal := if a.truthy then a else b

/-- The code points ECMAScript counts as WhiteSpace or LineTerminator (what `trim` and
`parseInt` strip). -/
def isJsSpace (c : Char) : Bool :=
  let n := c.toNat
  n == 0x09 || n == 0x0A || n == 0x0B || n == 0x0C || n == 0x0D || n == 0x20 ||
  n == 0xA0 || n == 0x1680 || (0x2000 ≤ n && n ≤ 0x200A) || n == 0x2028 ||
  n == 0x2029 || n == 0x202F || n == 0x205F || n == 0x3000 || n == 0xFEFF

/-- `String.prototype.trim` on the list of characters. -/
def trimChars (cs : List Char) : List Char :=
  ((cs.dropWhile isJsSpace).reverse.dropWhile isJsSpace).reverse

/-- `String.prototype.trim`. -/
def jsTrim (s : String) : String := ⟨trimChars s.data⟩

/-- `s.startsWith(p)`. -/
def startsWith (s p : String) : Bool := p.data.isPrefixOf s.data

/-- `s.replace(/^'/, '')`: drop one leading apostrophe. -/
def stripLeadingApostrophe (s : String) : String :=
  match s.data with
  | c :: cs => if c = apostrophe then ⟨cs⟩ else s
  | [] => s

/-- `s.padStart(n, '0')` for a string of ASCII characters. -/
def padStartZero (n : Nat) (s : String) : String :=
  ⟨List.replicate (n - s.data.length) '0' ++ s.data⟩

/-- `s.slice(-2)`: the last two characters. -/
def sliceLastTwo (s : String) : String := ⟨s.data.drop (s.data.length - 2)⟩

/-- The UTF-16 code units of one character. -/
def utf16Units (c : Char) : List Nat :=
  if c.toNat < 0x10000 then [c.toNat]
  else [0xD800 + (c.toNat - 0x10000) / 0x400, 0xDC00 + (c.toNat - 0x10000) % 0x400]

/-- The UTF-16 code units of a string, the sequence JavaScript compares strings by. -/
def utf16 : List Char → List Nat
  | [] => []
  | c :: cs => utf16Units c ++ utf16 cs

/-- Lexicographic `≤` on code-unit sequences. -/
def unitsLe : List Nat → List Nat → Bool
  | [], _ => true
  | _ :: _, [] => false
  | a :: as, b :: bs => a < b || (a == b && unitsLe as bs)

/-- The order of `Array.prototype.sort()` without a comparator on strings. -/
def jsStrLe (a b : String) : Prop := unitsLe (utf16 a.data) (utf16 b.data) = true

instance : DecidableRel jsStrLe := fun a b =>
  inferInstanceAs (Decidable (unitsLe (utf16 a.data) (utf16 b.data) = true))

/-- `xs.sort()` on an array of strings. -/
def jsSort (xs : List String) : List String := xs.insertionSort jsStrLe

/-- The value of an ASCII digit, or of a hexadecimal letter; `none` for any other
character. -/
def digitValue (c : Char) : Option Nat :=
  let n := c.toNat
  if 48 ≤ n ∧ n ≤ 57 then some (n - 48)
  else if 97 ≤ n ∧ n ≤ 102 then some (n - 87)
  else if 65 ≤ n ∧ n ≤ 70 then some (n - 55)
  else none

/-- Whether `c` is a digit of the given radix (10 or 16). -/
def isRadixDigit (radix : Nat) (c : Char) : Bool :=
  match digitValue c with
  | some v => v < radix
  | none => false

/-- The number written by a list of digits of the given radix. -/
def digitsValue (radix : Nat) (cs : List Char) : Nat :=
  cs.foldl (fun acc c => acc * radix + (digitValue c).getD 0) 0

/-- The digits of `parseInt`: after an optional `0x`/`0X` the radix is 16, else 10; the
longest run of digits of that radix is read, and there is no number (`NaN`) when
the run is empty. -/
def parseMagnitude (cs : List Char) : Option Nat :=
  let hex : Bool := cs.take 2 == ['0', 'x'] || cs.take 2 == ['0', 'X']
  let radix := if hex then 16 else 10
  let body := if hex then cs.drop 2 else cs
  let run := body.takeWhile (isRadixDigit radix)
  if run.isEmpty then none else some (digitsValue radix run)

/-- JavaScript `parseInt(s)` (no radix argument) as a mathematical integer; `none` is
`NaN`. Leading white space is skipped, then an optional sign is read. -/
def parseInt (s : String) : Option Int :=
  let cs := s.data.dropWhile isJsSpace
  if cs.head? = some '-' then (parseMagnitude cs.tail).map (fun (n : Nat) => - (n : Int))
  else if cs.head? = some '+' then (parseMagnitude cs.tail).map (fun (n : Nat) => (n : Int))
  else (parseMagnitude cs).map (fun (n : Nat) => (n : Int))

/-- `\d`: an ASCII decimal digit. -/
def isDecDigit (c : Char) : Bool := 48 ≤ c.toNat && c.toNat ≤ 57

/-- `s.match(/(\d{4})$/)`: the capture group, the last four characters when they are
four decimal digits. -/
def matchFourDigitsAtEnd (s : String) : Option String :=
  let last := s.data.drop (s.data.length - 4)
  if last.length = 4 ∧ last.all isDecDigit then some ⟨last⟩ else none

/-- `String(x)` of a number that may be `NaN`. -/
def numberToString : Option Int → String
  | some n => toString n
  | none => "NaN"

/-! ## The data model of the handler -/

/-- What the handler takes from its runtime: `toLowerCase` (the Unicode lower-casing of
`String.prototype.toLowerCase`, which leaves the empty string empty), the clock's
`getFullYear()` and `getMonth()` (0 to 11), and `new Date().toLocaleDateString('en-GB')`. -/
structure Env where
  toLowerCase : String → String
  lower_empty : toLowerCase "" = ""
  fullYear : Nat
  month : Nat
  issued_date : String

/-- A record of the item sheet as `getRecords(sheet_items)` projects it. -/
structure ItemRecord where
  quotation_no : String
  rev : String
  issued_date : String
  status : String
  category : String
  product_id : String
  name : String
  price : String
  quantity : String
  description : String
  cost : String
  deriving DecidableEq

/-- A record of the header sheet as `getRecords(sheet_customers)` projects it. -/
structure CustomerRecord where
  quotation_no : String
  rev : String
  issued_date : String
  status : String
  customer_name : String
  email : String
  phone : String
  company : String
  address : String
  notes : String
  sales_person : String
  sales_mobile : String
  sales_email : String
  sales_contact : String
  contact_tel : String
  contact_email : String
  delivery_time : String
  delivery_term : String
  payment_term : String
  quotation_validity : String
  customer_ref : String
  enquiry_ref : String
  deriving DecidableEq

/-- Property access `row[f]` on a header record, for the names `customerEqual` reads. -/
def CustomerRecord.get (r : CustomerRecord) (f : String) : JsVal :=
  if f = "customer_name" then .str r.customer_name
  else if f = "email" then .str r.email
  else if f = "phone" then .str r.phone
  else if f = "company" then .str r.company
  else if f = "address" then .str r.address
  else if f = "notes" then .str r.notes
  else if f = "sales_person" then .str r.sales_person
  else if f = "sales_mobile" then .str r.sales_mobile
  else if f = "sales_email" then .str r.sales_email
  else if f = "sales_contact" then .str r.sales_contact
  else if f = "contact_tel" then .str r.contact_tel
  else if f = "contact_email" then .str r.contact_email
  else if f = "delivery_time" then .str r.delivery_time
  else if f = "delivery_term" then .str r.delivery_term
  else if f = "payment_term" then .str r.payment_term
  else if f = "quotation_validity" then .str r.quotation_validity
  else if f = "customer_ref" then .str r.customer_ref
  else if f = "enquiry_ref" then .str r.enquiry_ref
  else .undefined

/-- One element of `data.items`. -/
structure Item where
  category : JsVal
  product_id : JsVal
  name : JsVal
  price : JsVal
  quantity : JsVal
  description : JsVal
  cost : JsVal
  deriving DecidableEq

/-- The request body `data`: `quotation_no` is a string or absent (`none`), `items` is an
array, and `field f` is `data[f]`, `undefined` when the body has no such property. -/
structure Submission where
  quotation_no : Option String
  items : List Item
  field : String → JsVal

/-- The `status` property of the JSON reply. -/
inductive ReplyStatus where
  | skipped : ReplyStatus
  | success : ReplyStatus
  deriving DecidableEq

/-- What one call of the handler does: the reply, and the rows passed to
`values.append` for the item sheet and for the header sheet. -/
structure Outcome where
  status : ReplyStatus
  quotation_no : String
  rev : Int
  itemRows : List (List JsVal)
  customerRows : List (List JsVal)
  deriving DecidableEq

/-! ## The handler -/

/-- The function `normalize` of the handler. -/
def normalize (env : Env) (val : JsVal) : String :=
  match val with
  | .undefined => ""
  | .null => ""
  | v => env.toLowerCase (jsTrim (stripLeadingApostrophe v.toStr))

/-- The function `sanitize` of the handler. -/
def sanitize (val : JsVal) : JsVal :=
  match val with
  | .str s =>
    if startsWith (jsTrim s) "=" || startsWith (jsTrim s) "+" then
      .str (String.singleton apostrophe ++ s)
    else .str s
  | v => v

/-- The month prefix: `QT`, the last two characters of the year, the month number
padded to two digits, `T-`. -/
def monthPrefix (env : Env) : String :=
  "QT" ++ sliceLastTwo (toString env.fullYear) ++
    padStartZero 2 (toString (env.month + 1)) ++ "T-"

/-- The variable `base_no`: `data.quotation_no?.trim()`. -/
def baseNo (data : Submission) : Option String := data.quotation_no.map jsTrim

/-- The variable `related_rows`. -/
def relatedRows (data : Submission) (itemsRes : List ItemRecord) : List ItemRecord :=
  match baseNo data with
  | some b => if b != "" then itemsRes.filter (fun r => r.quotation_no == b) else []
  | none => []

/-- The test `!base_no || related_rows.length === 0` that selects the new-document
branch. -/
def isNewDocument (data : Submission) (itemsRes : List ItemRecord) : Bool :=
  (match baseNo data with
    | some b => b == ""
    | none => true) || (relatedRows data itemsRes).length == 0

/-- The variable `nextNumber` of the new-document branch (`none` is `NaN`). -/
def nextNumber (env : Env) (itemsRes : List ItemRecord) : Option Int :=
  let existingNos :=
    (itemsRes.map (fun r => r.quotation_no)).filter (fun q => startsWith q (monthPrefix env))
  match (jsSort existingNos).getLast? with
  | none => some 1
  | some lastNo =>
    if lastNo != "" then
      match matchFourDigitsAtEnd lastNo with
      | some m => (parseInt m).map (fun v => v + 1)
      | none => some 1
    else some 1

/-- The quotation number the new-document branch allocates. -/
def newQuotationNo (env : Env) (itemsRes : List ItemRecord) : String :=
  monthPrefix env ++ padStartZero 4 (numberToString (nextNumber env itemsRes))

/-- The cell `r.rev || '0'` of a record, parsed: `parseInt(r.rev || '0')`. -/
def revOf (rev : String) : Option Int := parseInt (if rev != "" then rev else "0")

/-- The variable `existingRevs`. -/
def existingRevs (related : List ItemRecord) : List Int :=
  related.filterMap (fun r => revOf r.rev)

/-- `Math.max(...xs)` for a non-empty array of integers, at the semantics of the language
(an engine may refuse a spread of some hundred thousand arguments). -/
def maxOf : List Int → Int
  | [] => 0
  | x :: xs => xs.foldl max x

/-- The variable `new_rev` of the revision branch, on mathematical integers: the handler's
binary64 sum `Math.max(...existingRevs) + 1` is this integer as long as the revs are
below `2^53` in magnitude. -/
def newRev (related : List ItemRecord) : Int :=
  if (existingRevs related).length != 0 then maxOf (existingRevs related) + 1 else 1

/-- The variable `latest_rows`. -/
def latestRows (related : List ItemRecord) : List ItemRecord :=
  related.filter (fun r => revOf r.rev == some (newRev related - 1))

/-- The test `String(r.rev || '0') === String(rev)` on a header record's rev cell. -/
def revCellIs (cell : String) (rev : Int) : Bool :=
  (if cell != "" then cell else "0") == toString rev

/-- The variable `latest_customer_row`. -/
def latestCustomerRow (b : String) (related : List ItemRecord)
    (customersRes : List CustomerRecord) : Option CustomerRecord :=
  customersRes.find? (fun r => r.quotation_no == b && revCellIs r.rev (newRev related - 1))

/-- The test inside `matches`: a stored row against an incoming item. -/
def itemMatches (env : Env) (r : ItemRecord) (item : Item) : Bool :=
  normalize env (.str r.product_id) == normalize env item.product_id &&
  normalize env (.str r.name) == normalize env item.name &&
  r.price == item.price.toStr &&
  r.quantity == item.quantity.toStr

/-- The variable `matches`. -/
def matchesOf (env : Env) (latest : List ItemRecord) (items : List Item) : List Bool :=
  items.map (fun item => latest.any (fun r => itemMatches env r item))

/-- The list `fields` of `customerEqual`. -/
def customerFields : List String :=
  ["customer_name", "email", "phone", "company", "address", "notes",
   "sales_person", "sales_mobile", "sales_email", "sales_contact",
   "contact_tel", "contact_email", "delivery_time", "delivery_term",
   "payment_term", "quotation_validity", "customer_ref", "enquiry_ref"]

/-- The function `customerEqual(a, b)` with `a` the request body and `b` a header
record. -/
def customerEqual (env : Env) (a : Submission) (b : CustomerRecord) : Bool :=
  customerFields.all (fun f => normalize env (a.field f) == normalize env (b.get f))

/-- The variable `customerSame`, as the condition reads it. -/
def customerSame (env : Env) (data : Submission) (b : String) (related : List ItemRecord)
    (customersRes : List CustomerRecord) : Bool :=
  match latestCustomerRow b related customersRes with
  | some row => customerEqual env data row
  | none => false

/-- The condition of the duplicate return. -/
def isDuplicate (env : Env) (data : Submission) (b : String) (related : List ItemRecord)
    (customersRes : List CustomerRecord) : Bool :=
  (matchesOf env (latestRows related) data.items).all id &&
  (latestRows related).length == data.items.length &&
  customerSame env data b related customersRes

/-- The cell `new_rev === 0 ? '' : new_rev`. -/
def revCell (rev : Int) : JsVal := if rev = 0 then .str "" else .num rev

/-- The variable `itemValues`. -/
def itemValues (env : Env) (qno : String) (rev : Int) (items : List Item) :
    List (List JsVal) :=
  items.map (fun item =>
    [.str qno,
     revCell rev,
     .str env.issued_date,
     .str "Pending",
     sanitize item.category,
     sanitize item.product_id,
     sanitize item.name,
     item.price,
     item.quantity,
     sanitize (item.description.or (.str "")),
     item.cost.or (.num 0)])

/-- The variable `alreadyHasCustomer`. -/
def alreadyHasCustomer (qno : String) (rev : Int) (customersRes : List CustomerRecord) :
    Bool :=
  customersRes.any (fun row => row.quotation_no == qno && revCellIs row.rev rev)

/-- The variable `customerRow`. -/
def customerRow (env : Env) (qno : String) (rev : Int) (data : Submission) : List JsVal :=
  [.str qno,
   revCell rev,
   .str env.issued_date,
   .str "Pending",
   sanitize (data.field "customer_name"),
   sanitize (data.field "email"),
   sanitize (data.field "phone"),
   sanitize (data.field "company"),
   sanitize (data.field "address"),
   sanitize (data.field "notes"),
   sanitize (data.field "sales_person"),
   sanitize (data.field "sales_mobile"),
   sanitize (data.field "sales_email"),
   sanitize (data.field "sales_contact"),
   sanitize (data.field "contact_tel"),
   sanitize (data.field "contact_email"),
   sanitize (data.field "delivery_time"),
   sanitize (data.field "delivery_term"),
   sanitize (data.field "payment_term"),
   sanitize (data.field "quotation_validity"),
   sanitize ((data.field "customer_ref").or (.str "")),
   sanitize ((data.field "enquiry_ref").or (.str ""))]

/-- The write path: the item rows, the header row when the header sheet has none for the
pair, and the reply `success`. -/
def writePath (env : Env) (data : Submission) (customersRes : List CustomerRecord)
    (qno : String) (rev : Int) : Outcome :=
  { status := .success
    quotation_no := qno
    rev := rev
    itemRows := itemValues env qno rev data.items
    customerRows :=
      if alreadyHasCustomer qno rev customersRes then [] else [customerRow env qno rev data] }

/-- The handler of `POST /add_quotation` on the request body and the two record lists
it loaded. -/
def addQuotation (env : Env) (data : Submission) (itemsRes : List ItemRecord)
    (customersRes : List CustomerRecord) : Outcome :=
  if isNewDocument data itemsRes then
    writePath env data customersRes (newQuotationNo env itemsRes) 0
  else
    let b := (baseNo data).getD ""
    let related := relatedRows data itemsRes
    if isDuplicate env data b related customersRes then
      { status := .skipped
        quotation_no := b
        rev := newRev related - 1
        itemRows := []
        customerRows := [] }
    else
      writePath env data customersRes b (newRev related)

/-! ## The store between two calls -/

/-- Modelled from the spec: the row store's `append` followed by `readRange` (spec 4.1),
an external service with no code under `src/`. This is the store that keeps what it is
given: a string reads back as written, a number as its decimal numeral, `null` and
`undefined` as an empty cell. The service writes with `USER_ENTERED` and may read a string
as a number, a date or a formula, so the general statements rely on this read-back for
the quotation_no and rev cells only and otherwise take the store as a parameter; the
concrete inputs use it on plain words and small integers. -/
def cellText : JsVal → String
  | .undefined => ""
  | .null => ""
  | .str s => s
  | .num n => toString n

/-- The stored text of cell `i` of an appended row (`row[i] || ''`). -/
def cellAt (row : List JsVal) (i : Nat) : String := cellText (row.getD i .undefined)

/-- The item record `getRecords` yields for an appended row. -/
def itemRecordOfRow (row : List JsVal) : ItemRecord :=
  { quotation_no := cellAt row 0
    rev := cellAt row 1
    issued_date := cellAt row 2
    status := cellAt row 3
    category := cellAt row 4
    product_id := cellAt row 5
    name := cellAt row 6
    price := cellAt row 7
    quantity := cellAt row 8
    description := cellAt row 9
    cost := cellAt row 10 }

/-- The header record `getRecords` yields for an appended row. -/
def customerRecordOfRow (row : List JsVal) : CustomerRecord :=
  { quotation_no := cellAt row 0
    rev := cellAt row 1
    issued_date := cellAt row 2
    status := cellAt row 3
    customer_name := cellAt row 4
    email := cellAt row 5
    phone := cellAt row 6
    company := cellAt row 7
    address := cellAt row 8
    notes := cellAt row 9
    sales_person := cellAt row 10
    sales_mobile := cellAt row 11
    sales_email := cellAt row 12
    sales_contact := cellAt row 13
    contact_tel := cellAt row 14
    contact_email := cellAt row 15
    delivery_time := cellAt row 16
    delivery_term := cellAt row 17
    payment_term := cellAt row 18
    quotation_validity := cellAt row 19
    customer_ref := cellAt row 20
    enquiry_ref := cellAt row 21 }

/-- Modelled from the spec: the item records of the next call after the rows of an outcome
were appended (spec 4.1), read back by `cellText`. -/
def itemsAfter (itemsRes : List ItemRecord) (o : Outcome) : List ItemRecord :=
  itemsRes ++ o.itemRows.map itemRecordOfRow

/-- Modelled from the spec: the header records of the next call after the rows of an
outcome were appended (spec 4.1), read back by `cellText`. -/
def customersAfter (customersRes : List CustomerRecord) (o : Outcome) :
    List CustomerRecord :=
  customersRes ++ o.customerRows.map customerRecordOfRow

/-- ASCII lower-casing, the restriction of `toLowerCase` to ASCII text. -/
def asciiLower (s : String) : String := ⟨s.data.map Char.toLower⟩

/-- January 2025 with ASCII lower-casing. -/
def jan2025 : Env :=
  { toLowerCase := asciiLower
    lower_empty := rfl
    fullYear := 2025
    month := 0
    issued_date := "15/01/2025" }

/-! ## Predicates of the statements and stored records -/

/-- A non-empty list of decimal digits that writes `n`. -/
def IsNumeral (ds : List Char) (n : Nat) : Prop :=
  ds ≠ [] ∧ (∀ c ∈ ds, isDecDigit c = true) ∧ digitsValue 10 ds = n

/-- The string `q` is the prefix `P` followed by exactly four decimal digits, which
write the number `n`. -/
def HasSuffix (P q : String) (n : Nat) : Prop :=
  ∃ d : List Char, d.length = 4 ∧ (∀ c ∈ d, isDecDigit c = true) ∧
    digitsValue 10 d = n ∧ q.data = P.data ++ d

/-- The item record read back for the row the write path appends for `item`. -/
def storedItem (env : Env) (qno : String) (rev : Int) (item : Item) : ItemRecord :=
  { quotation_no := qno
    rev := cellText (revCell rev)
    issued_date := env.issued_date
    status := "Pending"
    category := cellText (sanitize item.category)
    product_id := cellText (sanitize item.product_id)
    name := cellText (sanitize item.name)
    price := cellText item.price
    quantity := cellText item.quantity
    description := cellText (sanitize (item.description.or (.str "")))
    cost := cellText (item.cost.or (.num 0)) }

/-- The item record `getRecords` yields for an appended row when the store returns the
text `store v` for an appended value `v`. -/
def itemRecordVia (store : JsVal → String) (row : List JsVal) : ItemRecord :=
  { quotation_no := store (row.getD 0 .undefined)
    rev := store (row.getD 1 .undefined)
    issued_date := store (row.getD 2 .undefined)
    status := store (row.getD 3 .undefined)
    category := store (row.getD 4 .undefined)
    product_id := store (row.getD 5 .undefined)
    name := store (row.getD 6 .undefined)
    price := store (row.getD 7 .undefined)
    quantity := store (row.getD 8 .undefined)
    description := store (row.getD 9 .undefined)
    cost := store (row.getD 10 .undefined) }

/-- The header record `getRecords` yields for an appended row when the store returns the
text `store v` for an appended value `v`. -/
def customerRecordVia (store : JsVal → String) (row : List JsVal) : CustomerRecord :=
  { quotation_no := store (row.getD 0 .undefined)
    rev := store (row.getD 1 .undefined)
    issued_date := store (row.getD 2 .undefined)
    status := store (row.getD 3 .undefined)
    customer_name := store (row.getD 4 .undefined)
    email := store (row.getD 5 .undefined)
    phone := store (row.getD 6 .undefined)
    company := store (row.getD 7 .undefined)
    address := store (row.getD 8 .undefined)
    notes := store (row.getD 9 .undefined)
    sales_person := store (row.getD 10 .undefined)
    sales_mobile := store (row.getD 11 .undefined)
    sales_email := store (row.getD 12 .undefined)
    sales_contact := store (row.getD 13 .undefined)
    contact_tel := store (row.getD 14 .undefined)
    contact_email := store (row.getD 15 .undefined)
    delivery_time := store (row.getD 16 .undefined)
    delivery_term := store (row.getD 17 .undefined)
    payment_term := store (row.getD 18 .undefined)
    quotation_validity := store (row.getD 19 .undefined)
    customer_ref := store (row.getD 20 .undefined)
    enquiry_ref := store (row.getD 21 .undefined) }

/-- Modelled from the spec: the item records of the next call after the rows of an outcome
were appended (spec 4.1: `append` adds the rows after the existing ones, which stay as
they were), for a store with read-back `store`. -/
def itemsAfterVia (store : JsVal → String) (itemsRes : List ItemRecord) (o : Outcome) :
    List ItemRecord :=
  itemsRes ++ o.itemRows.map (itemRecordVia store)

/-- Modelled from the spec: the header records of the next call after the rows of an
outcome were appended (spec 4.1), for a store with read-back `store`. -/
def customersAfterVia (store : JsVal → String) (customersRes : List CustomerRecord)
    (o : Outcome) : List CustomerRecord :=
  customersRes ++ o.customerRows.map (customerRecordVia store)

/-- The cell that `customerRow` writes for the header field `f`. -/
def customerCell (data : Submission) (f : String) : JsVal :=
  if f = "customer_ref" ∨ f = "enquiry_ref" then sanitize ((data.field f).or (.str ""))
  else sanitize (data.field f)

/-- The longest array for which the statements speak about `Math.max(...existingRevs)`:
the language sets no limit on the arguments of a spread call, the engines do (beyond a
hundred thousand in Node.js). -/
def spreadLimit : Nat := 65535

/-- The integers a binary64 number holds exactly together with their successor: those
below `2^53` in magnitude. -/
def isSafeInteger (v : Int) : Prop := -9007199254740992 < v ∧ v < 9007199254740992

instance (v : Int) : Decidable (isSafeInteger v) :=
  inferInstanceAs (Decidable (-9007199254740992 < v ∧ v < 9007199254740992))

/-- The number of halvings that bring a magnitude below `2^53`: for a magnitude of `2^53`
or more, the exponent of the binary64 unit in the last place. The first argument bounds
the halvings and is given as the magnitude itself. -/
def ulpExponent : Nat → Nat → Nat
  | 0, _ => 0
  | fuel + 1, a => if a < 9007199254740992 then 0 else ulpExponent fuel (a / 2) + 1

/-- The binary64 number nearest to a natural number: round to nearest, ties to the even
significand. -/
def roundMagnitude (a : Nat) : Nat :=
  let e := ulpExponent a a
  let q := a / 2 ^ e
  let r := a % 2 ^ e
  let up : Bool := decide (2 ^ e < 2 * r) || (decide (2 * r = 2 ^ e) && q % 2 == 1)
  (if up then q + 1 else q) * 2 ^ e

/-- The binary64 number nearest to an integer, as an integer. This is what a JavaScript
number holds for an integer result, as long as the result is finite (magnitudes below
`2^1024`). -/
def toBinary64 (n : Int) : Int :=
  if n < 0 then - (roundMagnitude n.natAbs : Int) else (roundMagnitude n.natAbs : Int)

/-- The variable `new_rev` of the revision branch in binary64, as the handler computes
`existingRevs.length ? Math.max(...existingRevs) + 1 : 1`: each `parseInt` result is a
binary64 number, `Math.max` returns one of its arguments, and the sum is rounded. The
result is `none` where the language does not fix it or it is not finite: a spread of
more than `spreadLimit` arguments, which an engine may refuse with a `RangeError`, and
a rev of more than 20 digits, which `parseInt` may approximate. -/
def newRevBinary64 (related : List ItemRecord) : Option Int :=
  if (existingRevs related).length != 0 then
    if (existingRevs related).length ≤ spreadLimit ∧
        ∀ v ∈ existingRevs related, v.natAbs < 100000000000000000000 then
      some (toBinary64 (maxOf ((existingRevs related).map toBinary64) + 1))
    else none
  else some 1

/-! ## Concrete inputs -/

/-- An item record with the given number, rev cell, product, name, price and quantity. -/
def itemRow (quotation_no rev product_id name price quantity : String) : ItemRecord :=
  { quotation_no := quotation_no
    rev := rev
    issued_date := "15/01/2025"
    status := "Pending"
    category := ""
    product_id := product_id
    name := name
    price := price
    quantity := quantity
    description := ""
    cost := "0" }

/-- The item `{product_id: "A1", name: "Widget", price: 10, quantity: n}`. -/
def widget (n : Int) : Item :=
  { category := .undefined
    product_id := .str "A1"
    name := .str "Widget"
    price := .num 10
    quantity := .num n
    description := .undefined
    cost := .undefined }

/-- The body `{quotation_no: q, items: [widget n], customer_name: "Acme"}`. -/
def acme (q : Option String) (n : Int) : Submission :=
  { quotation_no := q
    items := [widget n]
    field := fun f => if f = "customer_name" then .str "Acme" else .undefined }

/-- An item sheet holding the numbers 0001 and 0007 of January 2025. -/
def sparseTable : List ItemRecord :=
  [itemRow "QT2501T-0001" "" "A1" "Widget" "10" "2",
   itemRow "QT2501T-0007" "" "B2" "Gadget" "5" "1"]

/-- An item sheet holding revisions 0, 2 and 1 of QT2501T-0001, in that order, and
revision 5 of another quotation. -/
def threeRevisionTable : List ItemRecord :=
  [itemRow "QT2501T-0001" "" "A1" "Widget" "10" "2",
   itemRow "QT2501T-0001" "2" "A1" "Widget" "10" "4",
   itemRow "QT2501T-0007" "5" "B2" "Gadget" "5" "1",
   itemRow "QT2501T-0001" "1" "A1" "Widget" "10" "3"]

/-- An item sheet whose only row of QT2501T-0001 has the rev cell `2^53`. -/
def roundedRevTable : List ItemRecord :=
  [itemRow "QT2501T-0001" "9007199254740992" "A1" "Widget" "10" "2"]

/-- An item sheet holding the numbers 9999 and 10000 of January 2025, as ten thousand
new documents of that month leave it. -/
def overflowTable : List ItemRecord :=
  [itemRow "QT2501T-9999" "" "A1" "Widget" "10" "2",
   itemRow "QT2501T-10000" "" "B2" "Gadget" "5" "1"]

/-- Item equality as the specification words it: all four fields compared after
normalization. -/
def itemEqualSpec (env : Env) (r : ItemRecord) (item : Item) : Bool :=
  normalize env (.str r.product_id) == normalize env item.product_id &&
  normalize env (.str r.name) == normalize env item.name &&
  normalize env (.str r.price) == normalize env item.price &&
  normalize env (.str r.quantity) == normalize env item.quantity

/-- The header record the write path stores for `acme q n` at revision 0. -/
def acmeHeader (qno : String) : CustomerRecord :=
  customerRecordOfRow (customerRow jan2025 qno 0 (acme none 2))

/-- Revision 0 of QT2501T-0001 with two different items. -/
def twoItemTable : List ItemRecord :=
  [itemRow "QT2501T-0001" "" "A1" "Widget" "10" "2",
   itemRow "QT2501T-0001" "" "B2" "Gadget" "5" "1"]

/-- A resubmission for QT2501T-0001 that lists the widget twice and no gadget. -/
def twiceWidget : Submission :=
  { quotation_no := some "QT2501T-0001"
    items := [widget 2, widget 2]
    field := fun f => if f = "customer_name" then .str "Acme" else .undefined }

/-- The widget with its price sent as the text `" 10"`. -/
def paddedPriceWidget : Item := { widget 2 with price := .str " 10" }

/-- The stored widget header with another customer name. -/
def staleHeader : CustomerRecord :=
  { acmeHeader "QT2501T-0001" with customer_name := "Old" }

/-- The widget body with the price property absent. -/
def noPriceBody (q : Option String) : Submission :=
  { quotation_no := q
    items := [{ widget 2 with price := .undefined }]
    field := fun f => if f = "customer_name" then .str "Acme" else .undefined }

/-- The widget body with `customer_ref: 0`. -/
def zeroRefBody (q : Option String) : Submission :=
  { quotation_no := q
    items := [widget 2]
    field := fun f => if f = "customer_ref" then .num 0 else .undefined }

/-- The second call: `body` is accepted on the two sheets with no quotation_no, its rows
are appended, and it is submitted again under the number the first call reported. -/
def resubmit (env : Env) (body : Option String → Submission) (itemsRes : List ItemRecord)
    (customersRes : List CustomerRecord) : Outcome :=
  addQuotation env (body (some (addQuotation env (body none) itemsRes customersRes).quotation_no))
    (itemsAfter itemsRes (addQuotation env (body none) itemsRes customersRes))
    (customersAfter customersRes (addQuotation env (body none) itemsRes customersRes))

/-! ## Raw sheets and `getRecords` -/

/-- The cell `row[i] || ''` of a row returned by `values.get`. -/
def cellOrEmpty (row : List String) (i : Nat) : String := (row[i]?).getD ""

/-- The pairs `header.map((h, i) => [h, row[i] || ''])`, with `k` the index of the first
name of the list. -/
def entriesFrom (k : Nat) (row : List String) : List String → List (String × String)
  | [] => []
  | h :: hs => (h, cellOrEmpty row k) :: entriesFrom (k + 1) row hs

/-- A JavaScript object with string values, as its property lookup: `none` is an absent
key. -/
abbrev JsObject := String → Option String

/-- The assignment `o[k] = v`. -/
def objSet (o : JsObject) (k v : String) : JsObject :=
  fun name => if name = k then some v else o name

/-- `Object.fromEntries(es)`: the entries are assigned in order. -/
def fromEntries (es : List (String × String)) : JsObject :=
  es.foldl (fun o e => objSet o e.1 e.2) (fun _ => none)

/-- The function `getRecords` on the rows `res.data.values` of the sheet. -/
def getRecords (values : List (List String)) : List JsObject :=
  match values with
  | [] => []
  | header :: rows => rows.map (fun row => fromEntries (entriesFrom 0 row header))

/-- `xs.findIndex(p)`; `none` is `-1`. -/
def findIndex {α : Type} (p : α → Bool) : List α → Option Nat
  | [] => none
  | x :: xs => if p x then some 0 else (findIndex p xs).map (fun i => i + 1)

/-- `row[i]` of a raw row as a JavaScript value. -/
def jsCell (row : List String) (i : Nat) : JsVal :=
  match row[i]? with
  | some s => .str s
  | none => .undefined

/-! ## The handler of `GET /revisions/:quotation_no` -/

/-- `[...new Set(xs)]`: the first occurrences, in order. -/
def uniqueOf (xs : List Int) : List Int :=
  xs.foldl (fun acc x => if x ∈ acc then acc else acc ++ [x]) []

/-- `xs.sort((a, b) => a - b)` on integers. -/
def sortAscending (xs : List Int) : List Int := xs.insertionSort (fun a b => a ≤ b)

/-- The array the handler of `GET /revisions/:quotation_no` replies with. -/
def revisions (base : String) (items : List ItemRecord) : List Int :=
  let revs :=
    (((items.filter (fun r => r.quotation_no == base)).map (fun r => parseInt r.rev)).filterMap
      id)
  sortAscending (uniqueOf revs)

/-! ## The handler of `POST /update_quotation_status` -/

/-- The two sheets the handler writes to. -/
inductive SheetName where
  | items : SheetName
  | customers : SheetName
  deriving DecidableEq

/-- One `values.update` call: the range is the single cell `sheet!<column><row>` and the
resource is `[[value]]`. -/
structure CellWrite where
  sheet : SheetName
  column : Char
  row : Nat
  value : JsVal
  deriving DecidableEq

/-- The row test `row[0] === quotation_no && row[1] === String(rev)`. -/
def statusRowMatches (quotation_no rev : JsVal) (row : List String) : Bool :=
  jsCell row 0 == quotation_no && row[1]? == some rev.toStr

/-- The variable `updates1`, as the data indices `rowIndex` it keeps. -/
def updates1 (quotation_no rev : JsVal) (rows1 : List (List String)) : List Nat :=
  ((rows1.enumFrom 0).filter (fun p => statusRowMatches quotation_no rev p.2)).map
    (fun p => p.1)

/-- The array `updateRequests` of the handler of `POST /update_quotation_status`, on the
request body and the values of the two sheets. -/
def updateQuotationStatus (quotation_no rev status : JsVal)
    (values1 values2 : List (List String)) : List CellWrite :=
  let rows1 := values1.tail
  let rows2 := values2.tail
  let requests1 : List CellWrite :=
    (updates1 quotation_no rev rows1).map (fun rowIndex =>
      { sheet := .items, column := 'D', row := rowIndex + 2, value := status })
  let requests2 : List CellWrite :=
    match findIndex (statusRowMatches quotation_no rev) rows2 with
    | some rowIndex2 =>
      [{ sheet := .customers, column := 'D', row := rowIndex2 + 2, value := status }]
    | none => []
  requests1 ++ requests2

/-- A row with cell `c` set to `v`, the row being filled with empty cells up to `c`. -/
def setCell (row : List String) (c : Nat) (v : String) : List String :=
  (row ++ List.replicate (c + 1 - row.length) "").set c v

/-- The 0-based index of a column letter. -/
def columnIndex (column : Char) : Nat := column.toNat - 65

/-- The values of a sheet after one `values.update` of a single cell: row number `n` of
the range is row `n - 1` of the values. -/
def applyWrite (values : List (List String)) (w : CellWrite) : List (List String) :=
  let padded := values ++ List.replicate (w.row - values.length) []
  padded.set (w.row - 1)
    (setCell (padded.getD (w.row - 1) []) (columnIndex w.column) (cellText w.value))

/-- The values of the sheet `s` after the writes addressed to it. -/
def applyWrites (s : SheetName) (values : List (List String)) (ws : List CellWrite) :
    List (List String) :=
  (ws.filter (fun w => w.sheet == s)).foldl applyWrite values

/-- The text of cell `c` of row `r` of a sheet, empty when the cell is absent. -/
def cellAtIndex (values : List (List String)) (r c : Nat) : String :=
  cellOrEmpty (values.getD r []) c

/-! ## The handler of `DELETE /delete_category/:category_id` -/

/-- A `deleteDimension` request on `ROWS`: the 0-based range `[startIndex, endIndex)`. -/
structure DeleteRequest where
  startIndex : Nat
  endIndex : Nat
  deriving DecidableEq

/-- What the handler of `DELETE /delete_category` does when the category exists: the
requests of its two `batchUpdate` calls and the count it reports. -/
structure DeleteOutcome where
  categoryRequests : List DeleteRequest
  productRequests : List DeleteRequest
  deletedProducts : Nat
  deriving DecidableEq

/-- The array `deleteIndexes` before it is sorted: `i + 1` for each product row `i` with
`row[2] === category_name`. -/
def deleteIndexes (category_name : Option String) (prodRows : List (List String)) :
    List Nat :=
  ((prodRows.enumFrom 0).filter (fun p => p.2[2]? == category_name)).map (fun p => p.1 + 1)

/-- `xs.sort((a, b) => b - a)` on indices. -/
def sortDescending (xs : List Nat) : List Nat := xs.insertionSort (fun a b => a ≥ b)

/-- The variable `deleteRequests`. -/
def deleteRequests (category_name : Option String) (prodRows : List (List String)) :
    List DeleteRequest :=
  if (deleteIndexes category_name prodRows).length > 0 then
    (sortDescending (deleteIndexes category_name prodRows)).map (fun index =>
      { startIndex := index, endIndex := index + 1 })
  else []

/-- The handler of `DELETE /delete_category/:category_id` on the values of the category
sheet and of the product sheet (`values || []`); `none` is the 404 reply. -/
def deleteCategory (category_id : String) (catValues prodValues : List (List String)) :
    Option DeleteOutcome :=
  let catRows := catValues.tail
  match findIndex (fun row => row[0]? == some category_id) catRows with
  | none => none
  | some catIndex =>
    let deletedCat := catRows.getD catIndex []
    let category_name := deletedCat[1]?
    let prodRows := prodValues.tail
    some
      { categoryRequests := [{ startIndex := catIndex + 1, endIndex := catIndex + 2 }]
        productRequests := deleteRequests category_name prodRows
        deletedProducts := (deleteIndexes category_name prodRows).length }

/-- What the store does with one delete request: the rows of the range leave the sheet
and the rows below move up. -/
def applyDelete (values : List (List String)) (r : DeleteRequest) : List (List String) :=
  values.take r.startIndex ++ values.drop r.endIndex

/-- A `batchUpdate`: the requests are applied in order, each to the sheet as the
previous ones left it. -/
def applyDeletes (values : List (List String)) (rs : List DeleteRequest) :
    List (List String) :=
  rs.foldl applyDelete values

/-! ## The handler of `PUT /update_category/:category_id` -/

/-- A row of the stored sheet as a row of JavaScript values. -/
def rowValues (row : List String) : List JsVal := row.map JsVal.str

/-- The variable `updated`: each data row, or `[category_id, name, icon]` in its place
when `row[0] === category_id`. -/
def updatedRows (category_id : String) (name icon : JsVal) (rows : List (List String)) :
    List (List JsVal) :=
  rows.map (fun row =>
    if row[0]? == some category_id then [.str category_id, name, icon] else rowValues row)

/-- The table `[headers, ...updated]` that the handler of `PUT /update_category` hands to
`values.update`, on the values of the category sheet; a row `none` is `undefined`, which
is what `headers` is when the values are an empty array. -/
def updateCategory (category_id : String) (name icon : JsVal) (values : List (List String)) :
    List (Option (List JsVal)) :=
  let headers := values.head?
  let rows := values.tail
  headers.map rowValues :: (updatedRows category_id name icon rows).map some

/-! ## Further concrete inputs -/

/-- The widget item with the price sent as the text `=1+1`. -/
def formulaPriceItem : Item := { widget 2 with price := .str "=1+1" }

/-- The body `{items: [formulaPriceItem], customer_name: "Acme"}`. -/
def formulaPriceBody : Submission :=
  { quotation_no := none
    items := [formulaPriceItem]
    field := fun f => if f = "customer_name" then .str "Acme" else .undefined }

/-- The count of header records of the pair `(qno, rev)`, by the test of
`alreadyHasCustomer`. -/
def headerCount (qno : String) (rev : Int) (customersRes : List CustomerRecord) : Nat :=
  (customersRes.filter (fun row => row.quotation_no == qno && revCellIs row.rev rev)).length

/-- The header row of the item sheet. -/
def itemHeader : List String :=
  ["quotation_no", "rev", "issued_date", "status", "category", "product_id", "name", "price",
   "quantity", "description", "cost"]

/-- The header row of the header sheet. -/
def customerHeader : List String :=
  ["quotation_no", "rev", "issued_date", "status"] ++ customerFields

/-- The values of the item sheet after the widget body opened QT2501T-0001 in January
2025: the rev cell of the original is empty. -/
def widgetItemSheet : List (List String) :=
  [itemHeader,
   ["QT2501T-0001", "", "15/01/2025", "Pending", "", "A1", "Widget", "10", "2", "", "0"]]

/-- The values of the header sheet after the widget body opened QT2501T-0001 in January
2025; `values.get` leaves out the empty cells at the end of a row. -/
def widgetCustomerSheet : List (List String) :=
  [customerHeader,
   ["QT2501T-0001", "", "15/01/2025", "Pending", "Acme"]]

/-- The values of the item sheet once QT2501T-0001 has the original, approved since, and
a revision 1 of two items, beside another quotation. -/
def revisedItemSheet : List (List String) :=
  [itemHeader,
   ["QT2501T-0001", "", "15/01/2025", "Approved", "", "A1", "Widget", "10", "2", "", "0"],
   ["QT2501T-0007", "1", "16/01/2025", "Pending", "", "B2", "Gadget", "5", "1", "", "0"],
   ["QT2501T-0001", "1", "17/01/2025", "Pending", "", "A1", "Widget", "10", "3", "", "0"],
   ["QT2501T-0001", "1", "17/01/2025", "Pending", "", "B2", "Gadget", "5", "1", "", "0"]]

/-- The values of the header sheet beside `revisedItemSheet`. -/
def revisedCustomerSheet : List (List String) :=
  [customerHeader,
   ["QT2501T-0001", "", "15/01/2025", "Approved", "Acme"],
   ["QT2501T-0007", "1", "16/01/2025", "Pending", "Bolt"],
   ["QT2501T-0001", "1", "17/01/2025", "Pending", "Acme"]]

/-- An item sheet holding the original of QT2501T-0001 (empty rev cell) and its
revision 1. -/
def twoRevisionTable : List ItemRecord :=
  [itemRow "QT2501T-0001" "" "A1" "Widget" "10" "2",
   itemRow "QT2501T-0001" "1" "A1" "Widget" "10" "3"]

/-- A category sheet with the categories `c1` (Pipes) and `c2` (Valves). -/
def categorySheet : List (List String) :=
  [["category_id", "name", "icon"], ["c1", "Pipes", "p.png"], ["c2", "Valves", "v.png"]]

/-- A product sheet with five products; those at data indices 1 and 3 are Pipes. -/
def productSheet : List (List String) :=
  [["product_id", "name", "category"],
   ["p0", "Gate", "Valves"],
   ["p1", "Elbow", "Pipes"],
   ["p2", "Ball", "Valves"],
   ["p3", "Tee", "Pipes"],
   ["p4", "Check", "Valves"]]

/-- What deleting the category `c1` does on the two sheets above. -/
def pipesDeletion : DeleteOutcome :=
  { categoryRequests := [{ startIndex := 1, endIndex := 2 }]
    productRequests := [{ startIndex := 4, endIndex := 5 }, { startIndex := 2, endIndex := 3 }]
    deletedProducts := 2 }

/-! # Theorems -/

/-! ## Decimal numerals -/

theorem digitChar_spec (k : Nat) (h : k < 10) :
    isDecDigit (Nat.digitChar k) = true ∧ digitValue (Nat.digitChar k) = some k := by
  interval_cases k <;> decide

theorem digitsValue_append_singleton (radix : Nat) (ds : List Char) (c : Char) :
    digitsValue radix (ds ++ [c]) = digitsValue radix ds * radix + (digitValue c).getD 0 := by
  simp [digitsValue, List.foldl_append]

theorem toDigitsCore_spec (fuel : Nat) :
    ∀ n acc, n < fuel →
      ∃ ds, Nat.toDigitsCore 10 fuel n acc = ds ++ acc ∧ IsNumeral ds n := by
  induction fuel with
  | zero => intro n acc h; omega
  | succ fuel ih =>
    intro n acc h
    have hd := digitChar_spec (n % 10) (Nat.mod_lt _ (by decide))
    by_cases h0 : n / 10 = 0
    · refine ⟨[Nat.digitChar (n % 10)], ?_, ?_, ?_, ?_⟩
      · simp [Nat.toDigitsCore, h0]
      · simp
      · intro c hc; simp at hc; subst hc; exact hd.1
      · simp [digitsValue, hd.2]; omega
    · obtain ⟨ds, hds, hne, hdig, hval⟩ :=
        ih (n / 10) (Nat.digitChar (n % 10) :: acc) (by omega)
      refine ⟨ds ++ [Nat.digitChar (n % 10)], ?_, ?_, ?_, ?_⟩
      · simp [Nat.toDigitsCore, h0, hds]
      · simp
      · intro c hc
        rcases List.mem_append.1 hc with hc | hc
        · exact hdig c hc
        · simp at hc; subst hc; exact hd.1
      · rw [digitsValue_append_singleton, hval, hd.2]; simp; omega

theorem natRepr_spec (n : Nat) : IsNumeral (toString n).data n := by
  obtain ⟨ds, hds, h⟩ := toDigitsCore_spec (n + 1) n [] (by omega)
  have : (toString n).data = ds := by
    show (Nat.repr n).data = ds
    simp [Nat.repr, Nat.toDigits, hds, List.asString]
  rw [this]; exact h

theorem isDecDigit_range {c : Char} (h : isDecDigit c = true) :
    48 ≤ c.toNat ∧ c.toNat ≤ 57 := by
  simpa [isDecDigit] using h

theorem not_space_of_dec {c : Char} (h : isDecDigit c = true) : isJsSpace c = false := by
  have h := isDecDigit_range h
  simp only [isJsSpace, Bool.or_eq_false_iff, beq_eq_false_iff_ne, ne_eq, Bool.and_eq_false_imp,
    decide_eq_true_eq, decide_eq_false_iff_not]
  omega

theorem radixDigit_of_dec {c : Char} (h : isDecDigit c = true) : isRadixDigit 10 c = true := by
  have h := isDecDigit_range h
  simp only [isRadixDigit, digitValue]
  rw [if_pos h]
  simp; omega

theorem dec_ne_of_not_dec {c d : Char} (h : isDecDigit c = true) (hd : isDecDigit d = false) :
    c ≠ d := by
  intro e; subst e; simp [h] at hd

theorem parseMagnitude_numeral {ds : List Char} {n : Nat} (h : IsNumeral ds n) :
    parseMagnitude ds = some n := by
  obtain ⟨hne, hdig, hval⟩ := h
  have hhex : (ds.take 2 == ['0', 'x'] || ds.take 2 == ['0', 'X']) = false := by
    match ds, hdig with
    | [], _ => simp
    | [_], _ => simp
    | a :: b :: cs, hdig =>
      have hb : isDecDigit b = true := hdig b (by simp)
      have h1 : b ≠ 'x' := dec_ne_of_not_dec hb (by decide)
      have h2 : b ≠ 'X' := dec_ne_of_not_dec hb (by decide)
      simp [h1, h2]
  have htw : ds.takeWhile (isRadixDigit 10) = ds := by
    rw [List.takeWhile_eq_self_iff]
    intro c hc; exact radixDigit_of_dec (hdig c hc)
  simp only [parseMagnitude, hhex, Bool.false_eq_true, if_false, htw]
  cases ds with
  | nil => exact absurd rfl hne
  | cons c cs => simp [hval]

theorem dropSpace_numeral {ds : List Char} {n : Nat} (h : IsNumeral ds n) :
    ds.dropWhile isJsSpace = ds := by
  obtain ⟨hne, hdig, _⟩ := h
  cases ds with
  | nil => rfl
  | cons c cs => simp [List.dropWhile, not_space_of_dec (hdig c (by simp))]

theorem head_numeral {ds : List Char} {n : Nat} (h : IsNumeral ds n) :
    ∃ c cs, ds = c :: cs ∧ isDecDigit c = true := by
  obtain ⟨hne, hdig, _⟩ := h
  cases ds with
  | nil => exact absurd rfl hne
  | cons c cs => exact ⟨c, cs, rfl, hdig c (by simp)⟩

theorem parseInt_numeral {ds : List Char} {n : Nat} (h : IsNumeral ds n) :
    parseInt ⟨ds⟩ = some (n : Int) := by
  obtain ⟨c, cs, rfl, hc⟩ := head_numeral h
  have h1 : c ≠ '-' := dec_ne_of_not_dec hc (by decide)
  have h2 : c ≠ '+' := dec_ne_of_not_dec hc (by decide)
  simp only [parseInt, dropSpace_numeral h, List.head?_cons, Option.some.injEq, h1, h2, if_false,
    parseMagnitude_numeral h, Option.map_some']

theorem parseInt_neg_numeral {ds : List Char} {n : Nat} (h : IsNumeral ds n) :
    parseInt ⟨'-' :: ds⟩ = some (- (n : Int)) := by
  have hs : isJsSpace '-' = false := by decide
  simp only [parseInt, List.dropWhile, hs, List.head?_cons, if_true, List.tail_cons,
    parseMagnitude_numeral h, Option.map_some']

/-- The characters of `String(z)`: a decimal numeral, after a minus sign when `z < 0`. -/
theorem intToString_chars (z : Int) :
    ∃ ds n, IsNumeral ds n ∧
      (((toString z).data = ds ∧ z = n) ∨
        ((toString z).data = '-' :: ds ∧ z = - (n : Int))) := by
  cases z with
  | ofNat m => exact ⟨_, m, natRepr_spec m, Or.inl ⟨rfl, rfl⟩⟩
  | negSucc m =>
    refine ⟨_, m + 1, natRepr_spec (m + 1), Or.inr ⟨?_, ?_⟩⟩
    · show ("-" ++ toString (m + 1)).data = _
      simp [String.data_append]
    · simp [Int.negSucc_eq]

theorem parseInt_toString (z : Int) : parseInt (toString z) = some z := by
  obtain ⟨ds, n, h, (⟨hd, hz⟩ | ⟨hd, hz⟩)⟩ := intToString_chars z
  · have : toString z = ⟨ds⟩ := by rw [← hd]
    rw [this, parseInt_numeral h, hz]
  · have : toString z = ⟨'-' :: ds⟩ := by rw [← hd]
    rw [this, parseInt_neg_numeral h, hz]

theorem intToString_ne_empty (z : Int) : toString z ≠ "" := by
  obtain ⟨ds, n, h, (⟨hd, _⟩ | ⟨hd, _⟩)⟩ := intToString_chars z
  · intro e; rw [e] at hd; exact h.1 hd.symm
  · intro e; rw [e] at hd; simp at hd

/-! ## The order of `sort()` -/

theorem unitsLe_refl (a : List Nat) : unitsLe a a = true := by
  induction a with
  | nil => rfl
  | cons x xs ih => simp [unitsLe, ih]

theorem unitsLe_total (a : List Nat) : ∀ b, unitsLe a b = true ∨ unitsLe b a = true := by
  induction a with
  | nil => intro b; left; rfl
  | cons x xs ih =>
    intro b
    cases b with
    | nil => right; rfl
    | cons y ys =>
      simp only [unitsLe, Bool.or_eq_true, decide_eq_true_eq, Bool.and_eq_true, beq_iff_eq]
      rcases Nat.lt_trichotomy x y with h | h | h
      · exact Or.inl (Or.inl h)
      · rcases ih ys with h' | h'
        · exact Or.inl (Or.inr ⟨h, h'⟩)
        · exact Or.inr (Or.inr ⟨h.symm, h'⟩)
      · exact Or.inr (Or.inl h)

theorem unitsLe_trans (a : List Nat) :
    ∀ b c, unitsLe a b = true → unitsLe b c = true → unitsLe a c = true := by
  induction a with
  | nil => intro b c _ _; rfl
  | cons x xs ih =>
    intro b c hab hbc
    cases b with
    | nil => simp [unitsLe] at hab
    | cons y ys =>
      cases c with
      | nil => simp [unitsLe] at hbc
      | cons z zs =>
        simp only [unitsLe, Bool.or_eq_true, decide_eq_true_eq, Bool.and_eq_true,
          beq_iff_eq] at hab hbc ⊢
        rcases hab with h1 | ⟨h1, h1'⟩ <;> rcases hbc with h2 | ⟨h2, h2'⟩
        · exact Or.inl (by omega)
        · exact Or.inl (by omega)
        · exact Or.inl (by omega)
        · exact Or.inr ⟨by omega, ih ys zs h1' h2'⟩

theorem unitsLe_append_left (p : List Nat) (a b : List Nat) :
    unitsLe (p ++ a) (p ++ b) = unitsLe a b := by
  induction p with
  | nil => rfl
  | cons x xs ih => simp [unitsLe, ih]

theorem utf16_append (a b : List Char) : utf16 (a ++ b) = utf16 a ++ utf16 b := by
  induction a with
  | nil => rfl
  | cons x xs ih => simp [utf16, ih]

instance : IsTotal String jsStrLe := ⟨fun _ _ => unitsLe_total _ _⟩

instance : IsTrans String jsStrLe := ⟨fun _ _ _ h1 h2 => unitsLe_trans _ _ _ h1 h2⟩

/-- The element `sort().pop()` returns is a member that every member is below. -/
theorem getLast_jsSort {l : List String} {x : String} (h : (jsSort l).getLast? = some x) :
    x ∈ l ∧ ∀ y ∈ l, jsStrLe y x := by
  have hs : List.Sorted jsStrLe (jsSort l) := List.sorted_insertionSort jsStrLe l
  have hmem : ∀ y, y ∈ jsSort l ↔ y ∈ l :=
    fun y => (List.perm_insertionSort jsStrLe l).mem_iff
  obtain ⟨ys, hys⟩ := List.getLast?_eq_some_iff.1 h
  refine ⟨(hmem x).1 (by rw [hys]; simp), ?_⟩
  intro y hy
  have hy' : y ∈ ys ++ [x] := by rw [← hys]; exact (hmem y).2 hy
  rw [hys] at hs
  rcases List.mem_append.1 hy' with hy1 | hy1
  · exact (List.pairwise_append.1 hs).2.2 y hy1 x (by simp)
  · simp at hy1; subst hy1; exact unitsLe_refl _

theorem getLast_jsSort_none {l : List String} (h : (jsSort l).getLast? = none) : l = [] := by
  have h1 : jsSort l = [] := List.getLast?_eq_none_iff.1 h
  have h2 := List.length_insertionSort jsStrLe l
  rw [show List.insertionSort jsStrLe l = jsSort l from rfl, h1] at h2
  exact List.length_eq_zero.1 h2.symm

/-! ## Numerals of equal length compare as their values -/

theorem digitsValue_foldl (radix : Nat) (cs : List Char) : ∀ a : Nat,
    cs.foldl (fun acc c => acc * radix + (digitValue c).getD 0) a
      = a * radix ^ cs.length + digitsValue radix cs := by
  induction cs with
  | nil => intro a; simp [digitsValue]
  | cons c cs ih =>
    intro a
    simp only [digitsValue, List.foldl_cons, List.length_cons]
    rw [ih, ih (0 * radix + _)]
    ring

theorem digitsValue_cons (radix : Nat) (c : Char) (cs : List Char) :
    digitsValue radix (c :: cs)
      = (digitValue c).getD 0 * radix ^ cs.length + digitsValue radix cs := by
  have := digitsValue_foldl radix cs ((digitValue c).getD 0)
  simpa [digitsValue] using this

theorem digitValue_dec {c : Char} (h : isDecDigit c = true) :
    (digitValue c).getD 0 = c.toNat - 48 := by
  have h := isDecDigit_range h
  simp only [digitValue]
  rw [if_pos h]; rfl

theorem digitsValue_lt (cs : List Char) (h : ∀ c ∈ cs, isDecDigit c = true) :
    digitsValue 10 cs < 10 ^ cs.length := by
  induction cs with
  | nil => simp [digitsValue]
  | cons c cs ih =>
    have hc := isDecDigit_range (h c (by simp))
    have := ih (fun c hc => h c (by simp [hc]))
    rw [digitsValue_cons, digitValue_dec (h c (by simp)), List.length_cons, pow_succ]
    have h9 : c.toNat - 48 ≤ 9 := by omega
    nlinarith

theorem utf16_dec (cs : List Char) (h : ∀ c ∈ cs, isDecDigit c = true) :
    utf16 cs = cs.map Char.toNat := by
  induction cs with
  | nil => rfl
  | cons c cs ih =>
    have hc := isDecDigit_range (h c (by simp))
    simp only [utf16, utf16Units, List.map_cons]
    rw [if_pos (by omega), ih (fun c hc => h c (by simp [hc]))]
    rfl

theorem digitsValue_mono (a : List Char) : ∀ b : List Char, a.length = b.length →
    (∀ c ∈ a, isDecDigit c = true) → (∀ c ∈ b, isDecDigit c = true) →
    unitsLe (a.map Char.toNat) (b.map Char.toNat) = true →
    digitsValue 10 a ≤ digitsValue 10 b := by
  induction a with
  | nil => intro b hl _ _ _; cases b with
    | nil => exact le_refl _
    | cons _ _ => simp at hl
  | cons x xs ih =>
    intro b hl ha hb hle
    cases b with
    | nil => simp at hl
    | cons y ys =>
      have hx := isDecDigit_range (ha x (by simp))
      have hy := isDecDigit_range (hb y (by simp))
      have hl' : xs.length = ys.length := by simpa using hl
      rw [digitsValue_cons, digitsValue_cons, digitValue_dec (ha x (by simp)),
        digitValue_dec (hb y (by simp)), hl']
      simp only [List.map_cons, unitsLe, Bool.or_eq_true, decide_eq_true_eq, Bool.and_eq_true,
        beq_iff_eq] at hle
      rcases hle with hlt | ⟨heq, hrest⟩
      · have h1 := digitsValue_lt xs (fun c hc => ha c (by simp [hc]))
        rw [hl'] at h1
        have h2 : x.toNat - 48 + 1 ≤ y.toNat - 48 := by omega
        have h3 := Nat.mul_le_mul_right (10 ^ ys.length) h2
        nlinarith
      · have := ih ys hl' (fun c hc => ha c (by simp [hc])) (fun c hc => hb c (by simp [hc])) hrest
        rw [heq]; omega

/-! ## The new-document branch -/

theorem startsWith_of_data {P q : String} {d : List Char} (h : q.data = P.data ++ d) :
    startsWith q P = true := by
  simp [startsWith, h]

theorem matchFourDigitsAtEnd_of_data {P q : String} {d : List Char} (h : q.data = P.data ++ d)
    (hl : d.length = 4) (hd : ∀ c ∈ d, isDecDigit c = true) :
    matchFourDigitsAtEnd q = some ⟨d⟩ := by
  have hdrop : q.data.drop (q.data.length - 4) = d := by
    rw [h, List.length_append, hl, Nat.add_sub_cancel, List.drop_left]
  simp only [matchFourDigitsAtEnd, hdrop, hl, true_and]
  rw [if_pos (List.all_eq_true.2 hd)]

theorem digitsValue_zeros (k : Nat) (ds : List Char) :
    digitsValue 10 (List.replicate k '0' ++ ds) = digitsValue 10 ds := by
  induction k with
  | zero => rfl
  | succ k ih =>
    rw [List.replicate_succ, List.cons_append, digitsValue_cons, ih]
    have : (digitValue '0').getD 0 = 0 := by decide
    rw [this]; simp

/-- The four digits `padStart(4, '0')` makes of a number below ten thousand. -/
theorem padStart_numeral (n : Nat) (h : n < 10000) :
    ∃ d : List Char, d.length = 4 ∧ (∀ c ∈ d, isDecDigit c = true) ∧
      digitsValue 10 d = n ∧ (padStartZero 4 (toString n)).data = d := by
  obtain ⟨hne, hdig, hval⟩ := natRepr_spec n
  have hlen : (toString n).data.length ≤ 4 := Nat.repr_length n 4 (by decide) (by simpa using h)
  refine ⟨_, ?_, ?_, ?_, rfl⟩
  · simp only [padStartZero, List.length_append, List.length_replicate]; omega
  · intro c hc
    simp only [padStartZero, List.mem_append, List.mem_replicate] at hc
    rcases hc with ⟨_, rfl⟩ | hc
    · decide
    · exact hdig c hc
  · simp only [padStartZero]; rw [digitsValue_zeros, hval]

theorem nextNumber_of_none (env : Env) (itemsRes : List ItemRecord)
    (h : ∀ r ∈ itemsRes, startsWith r.quotation_no (monthPrefix env) = false) :
    nextNumber env itemsRes = some 1 := by
  have : (itemsRes.map (fun r => r.quotation_no)).filter
      (fun q => startsWith q (monthPrefix env)) = [] := by
    rw [List.filter_eq_nil_iff]
    intro q hq
    obtain ⟨r, hr, rfl⟩ := List.mem_map.1 hq
    simp [h r hr]
  simp only [nextNumber, this]
  rfl

theorem nextNumber_of_max (env : Env) (itemsRes : List ItemRecord)
    (hshape : ∀ r ∈ itemsRes, startsWith r.quotation_no (monthPrefix env) = true →
      ∃ n, n < 9999 ∧ HasSuffix (monthPrefix env) r.quotation_no n)
    (m : Nat) (hm : ∃ r ∈ itemsRes, HasSuffix (monthPrefix env) r.quotation_no m)
    (hmax : ∀ r ∈ itemsRes, ∀ n, HasSuffix (monthPrefix env) r.quotation_no n → n ≤ m) :
    nextNumber env itemsRes = some ((m : Int) + 1) := by
  obtain ⟨rm, hrm, dm, hlm, hdm, hvm, hem⟩ := hm
  have hmemf : ∀ q, q ∈ (itemsRes.map (fun r => r.quotation_no)).filter
      (fun q => startsWith q (monthPrefix env)) ↔
      ∃ r ∈ itemsRes, r.quotation_no = q ∧ startsWith q (monthPrefix env) = true := by
    intro q
    simp only [List.mem_filter, List.mem_map]
    constructor
    · rintro ⟨⟨r, hr, rfl⟩, hs⟩; exact ⟨r, hr, rfl, hs⟩
    · rintro ⟨r, hr, rfl, hs⟩; exact ⟨⟨r, hr, rfl⟩, hs⟩
  have hin : rm.quotation_no ∈ (itemsRes.map (fun r => r.quotation_no)).filter
      (fun q => startsWith q (monthPrefix env)) :=
    (hmemf _).2 ⟨rm, hrm, rfl, startsWith_of_data hem⟩
  cases hlast : (jsSort ((itemsRes.map (fun r => r.quotation_no)).filter
      (fun q => startsWith q (monthPrefix env)))).getLast? with
  | none =>
    rw [getLast_jsSort_none hlast] at hin
    simp at hin
  | some lastNo =>
    obtain ⟨hlmem, hlmax⟩ := getLast_jsSort hlast
    obtain ⟨r, hr, hrq, hrs⟩ := (hmemf _).1 hlmem
    subst hrq
    obtain ⟨n, _, d, hl, hd, hv, he⟩ := hshape r hr hrs
    have hnm : n ≤ m := hmax r hr n ⟨d, hl, hd, hv, he⟩
    have hle : jsStrLe rm.quotation_no r.quotation_no := hlmax _ hin
    have hmn : m ≤ n := by
      unfold jsStrLe at hle
      rw [hem, he, utf16_append, utf16_append, unitsLe_append_left, utf16_dec dm hdm,
        utf16_dec d hd] at hle
      have := digitsValue_mono dm d (by rw [hlm, hl]) hdm hd hle
      omega
    have hnum : IsNumeral d n := ⟨by intro e; rw [e] at hl; simp at hl, hd, hv⟩
    have hne : (r.quotation_no != "") = true := by
      simp only [bne_iff_ne, ne_eq]
      intro e
      have := congrArg (fun s => s.data.length) e
      simp [he, hl] at this
    simp only [nextNumber, hlast, hne, if_true, matchFourDigitsAtEnd_of_data he hl hd,
      parseInt_numeral hnum, Option.map_some']
    have : n = m := by omega
    rw [this]

/-! ## Trimming -/

theorem trimChars_eq (cs : List Char) :
    trimChars cs = (cs.dropWhile isJsSpace).rdropWhile isJsSpace := rfl

theorem rdropWhile_cons_of_neg {c : Char} {t : List Char} (h : isJsSpace c = false) :
    ∃ t', (c :: t).rdropWhile isJsSpace = c :: t' := by
  have hp : (c :: t).rdropWhile isJsSpace <+: c :: t := List.rdropWhile_prefix isJsSpace _
  have hne : (c :: t).rdropWhile isJsSpace ≠ [] := by
    intro e
    have := (List.rdropWhile_eq_nil_iff).1 e c (by simp)
    rw [h] at this; cases this
  obtain ⟨s, hs⟩ := hp
  cases hr : (c :: t).rdropWhile isJsSpace with
  | nil => exact absurd hr hne
  | cons x xs =>
    rw [hr] at hs
    simp only [List.cons_append, List.cons.injEq] at hs
    exact ⟨xs, by rw [hs.1]⟩

theorem trimChars_cons_of_neg {c : Char} {t : List Char} (h : isJsSpace c = false) :
    ∃ t', trimChars (c :: t) = c :: t' := by
  rw [trimChars_eq, List.dropWhile_cons_of_neg (by simp [h])]
  exact rdropWhile_cons_of_neg h

theorem trimChars_self {c l : Char} {t init : List Char} (hc : isJsSpace c = false)
    (hl : isJsSpace l = false) (h : c :: t = init ++ [l]) : trimChars (c :: t) = c :: t := by
  rw [trimChars_eq, List.dropWhile_cons_of_neg (by simp [hc]), h]
  exact List.rdropWhile_concat_neg _ _ _ (by simp [hl])

theorem trimChars_idem (cs : List Char) : trimChars (trimChars cs) = trimChars cs := by
  rw [trimChars_eq (trimChars cs), trimChars_eq cs]
  have hd : ((cs.dropWhile isJsSpace).rdropWhile isJsSpace).dropWhile isJsSpace
      = (cs.dropWhile isJsSpace).rdropWhile isJsSpace := by
    cases hL : cs.dropWhile isJsSpace with
    | nil => simp
    | cons c t =>
      have hc : isJsSpace c = false := by
        have := List.head_dropWhile_not isJsSpace cs (by rw [hL]; simp)
        simpa [hL] using this
      obtain ⟨t', ht'⟩ := rdropWhile_cons_of_neg (t := t) hc
      rw [ht', List.dropWhile_cons_of_neg (by simp [hc])]
  rw [hd, List.rdropWhile_idempotent]

theorem jsTrim_idem (s : String) : jsTrim (jsTrim s) = jsTrim s := by
  simp [jsTrim, trimChars_idem]

/-! ## Normalization of what the write path stores -/

theorem normalize_empty (env : Env) : normalize env (.str "") = "" := by
  show env.toLowerCase (jsTrim (stripLeadingApostrophe "")) = ""
  have : jsTrim (stripLeadingApostrophe "") = "" := by decide
  rw [this, env.lower_empty]

theorem stripLeadingApostrophe_cons (s : String) :
    stripLeadingApostrophe (String.singleton apostrophe ++ s) = s := by
  have : (String.singleton apostrophe ++ s).data = apostrophe :: s.data := by
    simp [String.data_append, String.singleton]
  simp [stripLeadingApostrophe, this]

theorem stripLeadingApostrophe_of_formula {s : String}
    (h : (startsWith (jsTrim s) "=" || startsWith (jsTrim s) "+") = true) :
    stripLeadingApostrophe s = s := by
  cases hs : s.data with
  | nil => simp [stripLeadingApostrophe, hs]
  | cons c t =>
    by_cases hc : c = apostrophe
    · exfalso
      subst hc
      have hsp : isJsSpace apostrophe = false := by decide
      obtain ⟨t', ht'⟩ := trimChars_cons_of_neg (t := t) hsp
      have h1 : (jsTrim s).data = apostrophe :: t' := by simp [jsTrim, hs, ht']
      have ha1 : ¬ ('=' = apostrophe) := by decide
      have ha2 : ¬ ('+' = apostrophe) := by decide
      simp [startsWith, h1, ha1, ha2] at h
    · simp [stripLeadingApostrophe, hs, hc]

/-- The normal form does not see the apostrophe that `sanitize` puts in front. -/
theorem normalize_sanitize (env : Env) (v : JsVal) :
    normalize env (sanitize v) = normalize env v := by
  cases v with
  | undefined => rfl
  | null => rfl
  | num n => rfl
  | str s =>
    by_cases h : (startsWith (jsTrim s) "=" || startsWith (jsTrim s) "+") = true
    · simp only [sanitize, h, if_true]
      show env.toLowerCase (jsTrim (stripLeadingApostrophe (String.singleton apostrophe ++ s)))
        = env.toLowerCase (jsTrim (stripLeadingApostrophe s))
      rw [stripLeadingApostrophe_cons, stripLeadingApostrophe_of_formula h]
    · simp only [sanitize, h]
      rfl

theorem revOf_revCell (rev : Int) : revOf (cellText (revCell rev)) = some rev := by
  by_cases h : rev = 0
  · subst h; decide
  · simp only [revCell, h, if_false, cellText, revOf]
    have := intToString_ne_empty rev
    simp only [bne_iff_ne, ne_eq, this, not_false_eq_true, if_true]
    exact parseInt_toString rev

theorem revCellIs_revCell (rev : Int) : revCellIs (cellText (revCell rev)) rev = true := by
  by_cases h : rev = 0
  · subst h; decide
  · simp only [revCell, h, if_false, cellText, revCellIs]
    have := intToString_ne_empty rev
    simp [this]

theorem HasSuffix_unique {P q : String} {n n' : Nat} (h : HasSuffix P q n)
    (h' : HasSuffix P q n') : n = n' := by
  obtain ⟨d, _, _, hv, he⟩ := h
  obtain ⟨d', _, _, hv', he'⟩ := h'
  have : d = d' := List.append_cancel_left (he.symm.trans he')
  rw [← hv, ← hv', this]

theorem addQuotation_new (env : Env) (data : Submission) (itemsRes : List ItemRecord)
    (customersRes : List CustomerRecord) (h : isNewDocument data itemsRes = true) :
    addQuotation env data itemsRes customersRes
      = writePath env data customersRes (newQuotationNo env itemsRes) 0 := by
  simp [addQuotation, h]

/-- C1. New-document numbering: when every stored number under the month prefix is the
prefix followed by four decimal digits writing a number below 9999, the new-document
branch reports the prefix followed by the four digits of the largest stored suffix plus
one, whatever gaps the stored suffixes have; it reports prefix + `0001` when no stored
number starts with the prefix. -/
theorem new_document_numbering (env : Env) (data : Submission) (itemsRes : List ItemRecord)
    (customersRes : List CustomerRecord)
    (hnew : isNewDocument data itemsRes = true)
    (hshape : ∀ r ∈ itemsRes, startsWith r.quotation_no (monthPrefix env) = true →
      ∃ n, n < 9999 ∧ HasSuffix (monthPrefix env) r.quotation_no n) :
    ((∀ r ∈ itemsRes, startsWith r.quotation_no (monthPrefix env) = false) →
      (addQuotation env data itemsRes customersRes).quotation_no = monthPrefix env ++ "0001") ∧
    (∀ m : Nat, (∃ r ∈ itemsRes, HasSuffix (monthPrefix env) r.quotation_no m) →
      (∀ r ∈ itemsRes, ∀ n, HasSuffix (monthPrefix env) r.quotation_no n → n ≤ m) →
      HasSuffix (monthPrefix env) (addQuotation env data itemsRes customersRes).quotation_no
        (m + 1)) := by
  rw [addQuotation_new env data itemsRes customersRes hnew]
  refine ⟨fun hnone => ?_, fun m hm hmax => ?_⟩
  · simp only [writePath, newQuotationNo, nextNumber_of_none env itemsRes hnone]
    rfl
  · have hlt : m < 9999 := by
      obtain ⟨r, hr, hs⟩ := hm
      have he := startsWith_of_data hs.choose_spec.2.2.2
      obtain ⟨n, hn, hs'⟩ := hshape r hr he
      rw [HasSuffix_unique hs hs']; exact hn
    obtain ⟨d, hl, hd, hv, he⟩ := padStart_numeral (m + 1) (by omega)
    refine ⟨d, hl, hd, hv, ?_⟩
    simp only [writePath, newQuotationNo, nextNumber_of_max env itemsRes hshape m hm hmax]
    have : numberToString (some ((m : Int) + 1)) = toString (m + 1) := rfl
    rw [this, String.data_append, he]

/-- C1, at the sheet holding 0001 and 0007 in January 2025: the next number ends in
0008. -/
theorem new_document_numbering_witness :
    HasSuffix (monthPrefix jan2025) (addQuotation jan2025 (acme none 2) sparseTable []).quotation_no
      (7 + 1) := by
  have hp : (monthPrefix jan2025).data = "QT2501T-".data := by decide
  have key : ∀ r ∈ sparseTable, ∀ n, HasSuffix (monthPrefix jan2025) r.quotation_no n →
      n = 1 ∨ n = 7 := by
    rintro r hr n ⟨d, _, _, hv, he⟩
    rw [hp] at he
    simp only [sparseTable, List.mem_cons, List.mem_singleton, List.not_mem_nil, or_false] at hr
    rcases hr with rfl | rfl
    · have : d = ['0', '0', '0', '1'] := by
        have he' : "QT2501T-".data ++ ['0', '0', '0', '1'] = "QT2501T-".data ++ d := he
        exact (List.append_cancel_left he').symm
      subst this; left; rw [← hv]; decide
    · have : d = ['0', '0', '0', '7'] := by
        have he' : "QT2501T-".data ++ ['0', '0', '0', '7'] = "QT2501T-".data ++ d := he
        exact (List.append_cancel_left he').symm
      subst this; right; rw [← hv]; decide
  refine (new_document_numbering jan2025 (acme none 2) sparseTable [] (by decide) ?_).2 7 ?_ ?_
  · intro r hr hs
    have hs' : ∃ n, HasSuffix (monthPrefix jan2025) r.quotation_no n := by
      simp only [sparseTable, List.mem_cons, List.mem_singleton, List.not_mem_nil, or_false] at hr
      rcases hr with rfl | rfl
      · exact ⟨1, ['0', '0', '0', '1'], by decide, by decide, by decide, by decide⟩
      · exact ⟨7, ['0', '0', '0', '7'], by decide, by decide, by decide, by decide⟩
    obtain ⟨n, hn⟩ := hs'
    refine ⟨n, ?_, hn⟩
    rcases key r hr n hn with h | h <;> omega
  · exact ⟨itemRow "QT2501T-0007" "" "B2" "Gadget" "5" "1", by simp [sparseTable],
      ['0', '0', '0', '7'], by decide, by decide, by decide, by decide⟩
  · intro r hr n hn
    rcases key r hr n hn with h | h <;> omega

/-- C2. At the sheet holding 9999 and 10000 of the month, `sort()` puts 9999 last, so
the new-document branch allocates 10000 again, a number the sheet already holds. -/
theorem allocation_reuses_number :
    (addQuotation jan2025 (acme none 2) overflowTable []).quotation_no = "QT2501T-10000" ∧
    (∃ r ∈ overflowTable,
      r.quotation_no = (addQuotation jan2025 (acme none 2) overflowTable []).quotation_no) := by
  decide

/-! ## The revision branch -/

theorem mem_relatedRows {data : Submission} {itemsRes : List ItemRecord} {r : ItemRecord} :
    r ∈ relatedRows data itemsRes ↔
      r ∈ itemsRes ∧ ∃ b, baseNo data = some b ∧ b ≠ "" ∧ r.quotation_no = b := by
  unfold relatedRows
  cases hb : baseNo data with
  | none => simp
  | some b =>
    by_cases he : b = ""
    · simp [he]
    · simp [he]

theorem isNewDocument_eq_false {data : Submission} {itemsRes : List ItemRecord}
    (h : isNewDocument data itemsRes = false) :
    ∃ b, baseNo data = some b ∧ b ≠ "" ∧
      relatedRows data itemsRes = itemsRes.filter (fun r => r.quotation_no == b) ∧
      relatedRows data itemsRes ≠ [] := by
  unfold isNewDocument at h
  cases hb : baseNo data with
  | none => simp [hb] at h
  | some b =>
    simp only [hb, Bool.or_eq_false_iff, beq_eq_false_iff_ne, ne_eq] at h
    refine ⟨b, rfl, h.1, ?_, ?_⟩
    · simp [relatedRows, hb, h.1]
    · intro e; rw [e] at h; simp at h

theorem foldl_max_spec (xs : List Int) : ∀ init : Int,
    init ≤ xs.foldl max init ∧ (∀ v ∈ xs, v ≤ xs.foldl max init) ∧
      (xs.foldl max init = init ∨ xs.foldl max init ∈ xs) := by
  induction xs with
  | nil => intro init; simp
  | cons x xs ih =>
    intro init
    obtain ⟨h1, h2, h3⟩ := ih (max init x)
    simp only [List.foldl_cons, List.mem_cons, forall_eq_or_imp]
    refine ⟨le_trans (le_max_left _ _) h1, ⟨le_trans (le_max_right _ _) h1, h2⟩, ?_⟩
    rcases h3 with h3 | h3
    · rcases max_cases init x with ⟨hm, _⟩ | ⟨hm, _⟩
      · left; rw [h3, hm]
      · right; left; rw [h3, hm]
    · right; right; exact h3

theorem maxOf_spec {xs : List Int} (h : xs ≠ []) :
    maxOf xs ∈ xs ∧ ∀ v ∈ xs, v ≤ maxOf xs := by
  cases xs with
  | nil => exact absurd rfl h
  | cons x xs =>
    obtain ⟨h1, h2, h3⟩ := foldl_max_spec xs x
    simp only [maxOf, List.mem_cons, forall_eq_or_imp]
    exact ⟨h3, h1, h2⟩

theorem mem_existingRevs {related : List ItemRecord} {v : Int} :
    v ∈ existingRevs related ↔ ∃ r ∈ related, revOf r.rev = some v := by
  simp [existingRevs, List.mem_filterMap]

theorem newRev_of_none {related : List ItemRecord}
    (h : ∀ r ∈ related, revOf r.rev = none) : newRev related = 1 := by
  have : existingRevs related = [] := by
    rw [List.eq_nil_iff_forall_not_mem]
    intro v hv
    obtain ⟨r, hr, hv⟩ := mem_existingRevs.1 hv
    rw [h r hr] at hv; cases hv
  simp [newRev, this]

theorem newRev_of_some {related : List ItemRecord}
    (h : ∃ r ∈ related, ∃ v, revOf r.rev = some v) :
    (∃ r ∈ related, revOf r.rev = some (newRev related - 1)) ∧
      ∀ r ∈ related, ∀ v, revOf r.rev = some v → v ≤ newRev related - 1 := by
  obtain ⟨r, hr, v, hv⟩ := h
  have hne : existingRevs related ≠ [] :=
    List.ne_nil_of_mem (mem_existingRevs.2 ⟨r, hr, hv⟩)
  obtain ⟨hmem, hmax⟩ := maxOf_spec hne
  have hlen : ((existingRevs related).length != 0) = true := by
    simp [List.length_eq_zero, hne]
  have hnr : newRev related - 1 = maxOf (existingRevs related) := by
    simp [newRev, hlen]
  rw [hnr]
  exact ⟨mem_existingRevs.1 hmem, fun r hr v hv => hmax v (mem_existingRevs.2 ⟨r, hr, hv⟩)⟩

theorem addQuotation_revision (env : Env) (data : Submission) (itemsRes : List ItemRecord)
    (customersRes : List CustomerRecord) (h : isNewDocument data itemsRes = false) :
    addQuotation env data itemsRes customersRes =
      if isDuplicate env data ((baseNo data).getD "") (relatedRows data itemsRes) customersRes
      then
        { status := .skipped
          quotation_no := (baseNo data).getD ""
          rev := newRev (relatedRows data itemsRes) - 1
          itemRows := []
          customerRows := [] }
      else
        writePath env data customersRes ((baseNo data).getD "")
          (newRev (relatedRows data itemsRes)) := by
  simp [addQuotation, h]

theorem ulpExponent_small (fuel a : Nat) (h : a < 9007199254740992) :
    ulpExponent fuel a = 0 := by
  cases fuel with
  | zero => rfl
  | succ n => simp [ulpExponent, h]

theorem roundMagnitude_exact (a : Nat) (h : a ≤ 9007199254740992) : roundMagnitude a = a := by
  by_cases hs : a < 9007199254740992
  · simp [roundMagnitude, ulpExponent_small a a hs, Nat.mod_one]
  · have ha : a = 9007199254740992 := by omega
    subst ha; decide

/-- Up to `2^53` in magnitude an integer is its own binary64 number. -/
theorem toBinary64_exact (n : Int) (h1 : -9007199254740992 ≤ n) (h2 : n ≤ 9007199254740992) :
    toBinary64 n = n := by
  have h : roundMagnitude n.natAbs = n.natAbs := roundMagnitude_exact _ (by omega)
  simp only [toBinary64, h]
  split <;> omega

/-- On safe integers, and within the spread limit, the binary64 computation of `new_rev`
is the integer `newRev`. -/
theorem newRevBinary64_eq {related : List ItemRecord}
    (hsafe : ∀ v ∈ existingRevs related, isSafeInteger v)
    (hspread : (existingRevs related).length ≤ spreadLimit) :
    newRevBinary64 related = some (newRev related) := by
  unfold newRevBinary64 newRev
  by_cases hlen : (existingRevs related).length = 0
  · simp [hlen]
  · have hne : existingRevs related ≠ [] := fun h => hlen (by rw [h]; rfl)
    have hmap : (existingRevs related).map toBinary64 = existingRevs related := by
      conv_rhs => rw [← List.map_id (existingRevs related)]
      apply List.map_congr_left
      intro v hv
      obtain ⟨h1, h2⟩ := hsafe v hv
      exact toBinary64_exact v (by omega) (by omega)
    have hdig : ∀ v ∈ existingRevs related, v.natAbs < 100000000000000000000 := by
      intro v hv
      obtain ⟨h1, h2⟩ := hsafe v hv
      omega
    obtain ⟨h1, h2⟩ := hsafe _ (maxOf_spec hne).1
    have hsum := toBinary64_exact (maxOf (existingRevs related) + 1) (by omega) (by omega)
    simp only [bne_iff_ne, ne_eq, hlen, not_false_eq_true, if_true, hmap, hsum]
    rw [if_pos ⟨hspread, hdig⟩]

/-- C8, amended. Revision number: outside the new-document branch, when every rev read
from the rows under the submitted number is a safe integer (below `2^53` in magnitude)
and at most `spreadLimit` revs are read, the handler's binary64 `new_rev` is the integer
`newRev`: it is 1 when no rev cell of those rows parses as an integer, and otherwise
`new_rev - 1` is the largest parsed rev of those rows, an empty cell parsing as 0; an
accepted submission reports `new_rev` and a duplicate reports `new_rev - 1`. -/
theorem revision_number (env : Env) (data : Submission) (itemsRes : List ItemRecord)
    (customersRes : List CustomerRecord) (hrev : isNewDocument data itemsRes = false)
    (hsafe : ∀ v ∈ existingRevs (relatedRows data itemsRes), isSafeInteger v)
    (hspread : (existingRevs (relatedRows data itemsRes)).length ≤ spreadLimit) :
    (∀ r, r ∈ relatedRows data itemsRes ↔
      r ∈ itemsRes ∧ some r.quotation_no = baseNo data) ∧
    revOf "" = some 0 ∧
    newRevBinary64 (relatedRows data itemsRes) = some (newRev (relatedRows data itemsRes)) ∧
    ((∀ r ∈ relatedRows data itemsRes, revOf r.rev = none) →
      newRev (relatedRows data itemsRes) = 1) ∧
    ((∃ r ∈ relatedRows data itemsRes, ∃ v, revOf r.rev = some v) →
      (∃ r ∈ relatedRows data itemsRes,
        revOf r.rev = some (newRev (relatedRows data itemsRes) - 1)) ∧
      ∀ r ∈ relatedRows data itemsRes, ∀ v, revOf r.rev = some v →
        v ≤ newRev (relatedRows data itemsRes) - 1) ∧
    ((addQuotation env data itemsRes customersRes).status = .success →
      (addQuotation env data itemsRes customersRes).rev = newRev (relatedRows data itemsRes)) ∧
    ((addQuotation env data itemsRes customersRes).status = .skipped →
      (addQuotation env data itemsRes customersRes).rev
        = newRev (relatedRows data itemsRes) - 1) := by
  obtain ⟨b, hb, hne, _, _⟩ := isNewDocument_eq_false hrev
  refine ⟨?_, by decide, newRevBinary64_eq hsafe hspread, newRev_of_none, newRev_of_some,
    ?_, ?_⟩
  · intro r
    rw [mem_relatedRows, hb]
    constructor
    · rintro ⟨hr, b', hb', _, hq⟩
      exact ⟨hr, by rw [hq, ← hb']⟩
    · rintro ⟨hr, hq⟩
      exact ⟨hr, b, rfl, hne, Option.some.inj hq⟩
  · rw [addQuotation_revision env data itemsRes customersRes hrev]
    split <;> simp [writePath]
  · rw [addQuotation_revision env data itemsRes customersRes hrev]
    split <;> simp [writePath]

/-- C8, amended, at the resubmission of the widget with quantity 5 for QT2501T-0001, whose
stored revisions are 0, 2 and 1 beside revision 5 of another quotation: `new_rev` is 3,
and 3 is the reported rev. -/
theorem revision_number_witness :
    newRevBinary64 (relatedRows (acme (some "QT2501T-0001") 5) threeRevisionTable) = some 3 ∧
    (addQuotation jan2025 (acme (some "QT2501T-0001") 5) threeRevisionTable []).status
      = .success ∧
    (addQuotation jan2025 (acme (some "QT2501T-0001") 5) threeRevisionTable []).rev = 3 :=
  have h := revision_number jan2025 (acme (some "QT2501T-0001") 5) threeRevisionTable []
    (by decide) (by decide) (by decide)
  ⟨h.2.2.1.trans (by decide), by decide, (h.2.2.2.2.2.1 (by decide)).trans (by decide)⟩

/-- C8 as worded fails where binary64 rounds: with the rev cell `9007199254740992` (which
is `2^53`) the revision branch is taken, the largest rev read is `2^53`, and the sum
`2^53 + 1` is the number `2^53` again, so `new_rev` is the maximum and not 1 more. -/
theorem revision_number_rounds :
    isNewDocument (acme (some "QT2501T-0001") 3) roundedRevTable = false ∧
    existingRevs (relatedRows (acme (some "QT2501T-0001") 3) roundedRevTable)
      = [9007199254740992] ∧
    newRevBinary64 (relatedRows (acme (some "QT2501T-0001") 3) roundedRevTable)
      = some 9007199254740992 := by
  decide

/-! ## The duplicate decision -/

theorem isDuplicate_iff (env : Env) (data : Submission) (b : String)
    (related : List ItemRecord) (customersRes : List CustomerRecord) :
    isDuplicate env data b related customersRes = true ↔
      (∀ item ∈ data.items, ∃ r ∈ latestRows related, itemMatches env r item = true) ∧
      (latestRows related).length = data.items.length ∧
      ∃ row, latestCustomerRow b related customersRes = some row ∧
        ∀ f ∈ customerFields, normalize env (data.field f) = normalize env (row.get f) := by
  unfold isDuplicate customerSame matchesOf
  cases hrow : latestCustomerRow b related customersRes with
  | none => simp
  | some row =>
    simp only [Bool.and_eq_true, List.all_eq_true, List.mem_map, id_eq, forall_exists_index,
      and_imp, forall_apply_eq_imp_iff₂, List.any_eq_true, beq_iff_eq, customerEqual,
      Option.some.injEq, exists_eq_left', and_assoc]

theorem addQuotation_duplicate (env : Env) (data : Submission) (itemsRes : List ItemRecord)
    (customersRes : List CustomerRecord) (b : String)
    (hb : baseNo data = some b) (hne : b ≠ "")
    (hstored : ∃ r ∈ itemsRes, r.quotation_no = b)
    (hitems : ∀ item ∈ data.items,
      ∃ r ∈ latestRows (relatedRows data itemsRes), itemMatches env r item = true)
    (hcount : (latestRows (relatedRows data itemsRes)).length = data.items.length)
    (hheader : ∃ row,
      latestCustomerRow b (relatedRows data itemsRes) customersRes = some row ∧
      ∀ f ∈ customerFields, normalize env (data.field f) = normalize env (row.get f)) :
    addQuotation env data itemsRes customersRes =
      { status := .skipped
        quotation_no := b
        rev := newRev (relatedRows data itemsRes) - 1
        itemRows := []
        customerRows := [] } := by
  have hnew : isNewDocument data itemsRes = false := by
    obtain ⟨r, hr, hq⟩ := hstored
    have hmem : r ∈ relatedRows data itemsRes := mem_relatedRows.2 ⟨hr, b, hb, hne, hq⟩
    have hlen : (relatedRows data itemsRes).length ≠ 0 := by
      intro e; rw [List.length_eq_zero] at e; rw [e] at hmem; simp at hmem
    simp [isNewDocument, hb, hne, hlen]
  have hdup : isDuplicate env data b (relatedRows data itemsRes) customersRes = true :=
    (isDuplicate_iff env data b _ customersRes).2 ⟨hitems, hcount, hheader⟩
  rw [addQuotation_revision env data itemsRes customersRes hnew]
  simp [hb, hdup]

/-- C3. Duplicate outcome: when the submission names a stored quotation number and item-set
equality (every incoming item matches a row of the previous revision, and the counts
agree) and header equality (the header row of the previous revision exists and agrees on
the 18 fields) hold, the handler appends no item row and no header row and reports that
number with the previous revision `new_rev - 1`. -/
theorem duplicate_outcome (env : Env) (data : Submission) (itemsRes : List ItemRecord)
    (customersRes : List CustomerRecord) (b : String)
    (hb : baseNo data = some b) (hne : b ≠ "")
    (hstored : ∃ r ∈ itemsRes, r.quotation_no = b)
    (hitems : ∀ item ∈ data.items,
      ∃ r ∈ latestRows (relatedRows data itemsRes), itemMatches env r item = true)
    (hcount : (latestRows (relatedRows data itemsRes)).length = data.items.length)
    (hheader : ∃ row,
      latestCustomerRow b (relatedRows data itemsRes) customersRes = some row ∧
      ∀ f ∈ customerFields, normalize env (data.field f) = normalize env (row.get f)) :
    addQuotation env data itemsRes customersRes =
      { status := .skipped
        quotation_no := b
        rev := newRev (relatedRows data itemsRes) - 1
        itemRows := []
        customerRows := [] } :=
  addQuotation_duplicate env data itemsRes customersRes b hb hne hstored hitems hcount hheader

/-- C7. Header equality: the handler answers `skipped` only if the header sheet has a row
with the submitted number and the previous revision in its rev cell (an empty cell being
revision 0) whose 18 customer fields equal the submitted ones after normalization; an
absent field normalizes to the empty string. -/
theorem duplicate_needs_equal_header (env : Env) (data : Submission)
    (itemsRes : List ItemRecord) (customersRes : List CustomerRecord)
    (hdup : (addQuotation env data itemsRes customersRes).status = .skipped) :
    (∃ row ∈ customersRes,
      some row.quotation_no = baseNo data ∧
      revCellIs row.rev (newRev (relatedRows data itemsRes) - 1) = true ∧
      ∀ f ∈ customerFields, normalize env (data.field f) = normalize env (row.get f)) ∧
    customerFields.length = 18 ∧
    normalize env .undefined = "" := by
  refine ⟨?_, by decide, rfl⟩
  cases hnew : isNewDocument data itemsRes with
  | true =>
    rw [addQuotation_new env data itemsRes customersRes hnew] at hdup
    simp [writePath] at hdup
  | false =>
    obtain ⟨b, hb, _, _, _⟩ := isNewDocument_eq_false hnew
    rw [addQuotation_revision env data itemsRes customersRes hnew] at hdup
    by_cases hd : isDuplicate env data ((baseNo data).getD "") (relatedRows data itemsRes)
        customersRes = true
    · obtain ⟨_, _, row, hrow, hf⟩ := (isDuplicate_iff env data _ _ customersRes).1 hd
      have hmem := List.mem_of_find?_eq_some hrow
      have hp := List.find?_some hrow
      simp only [hb, Option.getD_some, Bool.and_eq_true, beq_iff_eq] at hp
      exact ⟨row, hmem, by rw [hb, hp.1], hp.2, hf⟩
    · rw [if_neg hd] at hdup
      simp [writePath] at hdup

/-- C7, at the resubmission of the stored widget quotation. -/
theorem duplicate_needs_equal_header_witness :
    ∃ row ∈ [acmeHeader "QT2501T-0001"],
      some row.quotation_no = baseNo (acme (some "QT2501T-0001") 2) ∧
      revCellIs row.rev
        (newRev (relatedRows (acme (some "QT2501T-0001") 2) sparseTable) - 1) = true ∧
      ∀ f ∈ customerFields,
        normalize jan2025 ((acme (some "QT2501T-0001") 2).field f)
          = normalize jan2025 (row.get f) :=
  (duplicate_needs_equal_header jan2025 (acme (some "QT2501T-0001") 2) sparseTable
    [acmeHeader "QT2501T-0001"] (by decide)).1

/-- C3, at the resubmission of the stored widget quotation: nothing is appended and
revision 0 is reported. -/
theorem duplicate_outcome_witness :
    addQuotation jan2025 (acme (some "QT2501T-0001") 2) sparseTable
        [acmeHeader "QT2501T-0001"] =
      { status := .skipped
        quotation_no := "QT2501T-0001"
        rev := 0
        itemRows := []
        customerRows := [] } :=
  duplicate_outcome jan2025 (acme (some "QT2501T-0001") 2) sparseTable
    [acmeHeader "QT2501T-0001"] "QT2501T-0001" (by decide) (by decide) (by decide) (by decide)
    (by decide) ⟨acmeHeader "QT2501T-0001", by decide, by decide⟩

/-- C5, as stated, fails: the stored widget row and the widget sent with price `" 10"`
agree on all four fields after normalization, yet the handler's test rejects the pair. -/
theorem item_equality_not_normalized :
    ¬ (itemMatches jan2025 (itemRow "QT2501T-0001" "" "A1" "Widget" "10" "2") paddedPriceWidget
        = true ↔
      itemEqualSpec jan2025 (itemRow "QT2501T-0001" "" "A1" "Widget" "10" "2")
        paddedPriceWidget = true) := by
  decide

/-- C5, amended. A stored row and an incoming item count as equal exactly when product_id
and name are equal after normalization and price and quantity are equal as the strings
`String(...)` gives, untrimmed and case-sensitive. Normalization maps an absent or null
value to the empty string and any other value to its string with one leading apostrophe
dropped, trimmed and lower-cased. -/
theorem item_equality (env : Env) (r : ItemRecord) (item : Item) :
    (itemMatches env r item = true ↔
      normalize env (.str r.product_id) = normalize env item.product_id ∧
      normalize env (.str r.name) = normalize env item.name ∧
      r.price = item.price.toStr ∧
      r.quantity = item.quantity.toStr) ∧
    normalize env .undefined = "" ∧
    normalize env .null = "" ∧
    (∀ s, normalize env (.str s) = env.toLowerCase (jsTrim (stripLeadingApostrophe s))) ∧
    (∀ n, normalize env (.num n)
      = env.toLowerCase (jsTrim (stripLeadingApostrophe (toString n)))) := by
  refine ⟨?_, rfl, rfl, fun _ => rfl, fun _ => rfl⟩
  simp only [itemMatches, Bool.and_eq_true, beq_iff_eq, and_assoc]

/-- C6. At revision 0 holding a widget and a gadget, the resubmission that lists the
widget twice is answered `skipped`, although the gadget row equals no incoming item. -/
theorem duplicate_despite_missing_item :
    (addQuotation jan2025 twiceWidget twoItemTable [acmeHeader "QT2501T-0001"]).status
      = .skipped ∧
    (∃ r ∈ latestRows (relatedRows twiceWidget twoItemTable),
      ∀ item ∈ twiceWidget.items, itemMatches jan2025 r item = false) := by
  decide

/-- C10. New-document decision: the new-document branch is taken exactly when the
submitted quotation_no is absent, or empty after trimming, or equal after trimming to the
quotation_no of no loaded item record. In that branch the reply is `success` with rev 0
and the number allocated from the clock and the item sheet; in the other branch the reply
carries the trimmed submitted number. -/
theorem new_document_decision (env : Env) (data : Submission) (itemsRes : List ItemRecord)
    (customersRes : List CustomerRecord) :
    (isNewDocument data itemsRes = true ↔
      (data.quotation_no = none ∨
        ∃ s, data.quotation_no = some s ∧
          (jsTrim s = "" ∨ ∀ r ∈ itemsRes, r.quotation_no ≠ jsTrim s))) ∧
    (isNewDocument data itemsRes = true →
      (addQuotation env data itemsRes customersRes).status = .success ∧
      (addQuotation env data itemsRes customersRes).rev = 0 ∧
      (addQuotation env data itemsRes customersRes).quotation_no
        = newQuotationNo env itemsRes) ∧
    (isNewDocument data itemsRes = false →
      ∃ s, data.quotation_no = some s ∧
        (addQuotation env data itemsRes customersRes).quotation_no = jsTrim s) := by
  refine ⟨?_, ?_, ?_⟩
  · cases hq : data.quotation_no with
    | none => simp [isNewDocument, baseNo, hq]
    | some s =>
      by_cases he : jsTrim s = ""
      · simp [isNewDocument, baseNo, hq, he]
      · have hb : (jsTrim s == "") = false := by simp [he]
        simp [isNewDocument, baseNo, hq, he, hb, relatedRows, List.filter_eq_nil_iff]
  · intro h
    rw [addQuotation_new env data itemsRes customersRes h]
    exact ⟨rfl, rfl, rfl⟩
  · intro h
    obtain ⟨b, hb, _, _, _⟩ := isNewDocument_eq_false h
    rw [addQuotation_revision env data itemsRes customersRes h]
    cases hq : data.quotation_no with
    | none => simp [baseNo, hq] at hb
    | some s =>
      refine ⟨s, rfl, ?_⟩
      simp only [baseNo, hq, Option.map_some', Option.getD_some]
      split <;> rfl

/-! ## Reading back what the write path appended -/

theorem map_itemRecordOfRow (env : Env) (qno : String) (rev : Int) (items : List Item) :
    (itemValues env qno rev items).map itemRecordOfRow = items.map (storedItem env qno rev) := by
  simp only [itemValues, List.map_map]
  rfl

theorem itemRecordVia_itemValues (store : JsVal → String) (env : Env) (qno : String)
    (rev : Int) (items : List Item) :
    ∀ r ∈ (itemValues env qno rev items).map (itemRecordVia store),
      ∃ item ∈ items, r.quotation_no = store (.str qno) ∧ r.rev = store (revCell rev) ∧
        r.product_id = store (sanitize item.product_id) ∧ r.name = store (sanitize item.name) ∧
        r.price = store item.price ∧ r.quantity = store item.quantity := by
  intro r hr
  simp only [itemValues, List.map_map, List.mem_map, Function.comp] at hr
  obtain ⟨item, hitem, rfl⟩ := hr
  exact ⟨item, hitem, rfl, rfl, rfl, rfl, rfl, rfl⟩

theorem customerRecordVia_get (store : JsVal → String) (env : Env) (qno : String) (rev : Int)
    (data : Submission) :
    ∀ f ∈ customerFields,
      (customerRecordVia store (customerRow env qno rev data)).get f
        = .str (store (customerCell data f)) := by
  intro f hf
  simp only [customerFields, List.mem_cons, List.mem_singleton, List.not_mem_nil, or_false] at hf
  rcases hf with rfl | rfl | rfl | rfl | rfl | rfl | rfl | rfl | rfl | rfl | rfl | rfl | rfl |
    rfl | rfl | rfl | rfl | rfl <;> rfl

theorem revOf_of_text {cell : String} {rev : Int} (h : cell = (revCell rev).toStr) :
    revOf cell = some rev := by
  have : (revCell rev).toStr = cellText (revCell rev) := by
    by_cases h0 : rev = 0
    · subst h0; rfl
    · simp [revCell, h0, cellText, JsVal.toStr]
  rw [h, this]; exact revOf_revCell rev

theorem revCellIs_of_text {cell : String} {rev : Int} (h : cell = (revCell rev).toStr) :
    revCellIs cell rev = true := by
  have : (revCell rev).toStr = cellText (revCell rev) := by
    by_cases h0 : rev = 0
    · subst h0; rfl
    · simp [revCell, h0, cellText, JsVal.toStr]
  rw [h, this]; exact revCellIs_revCell rev

/-- The second call: once the rows written for `(qno, rev)` are read back from the two
sheets with the number and the rev as written and with every compared cell equal to the
submitted value under the handler's comparison, above rows of `qno` with smaller revs only
and with no other header row of the pair, the same body under `qno` is a duplicate. -/
theorem addQuotation_again (store : JsVal → String) (env : Env) (data : Submission)
    (qno : String) (rev : Int) (old : List ItemRecord) (customersRes : List CustomerRecord)
    (hq : jsTrim qno = qno) (hqne : qno ≠ "") (hitems : data.items ≠ [])
    (hold : ∀ r ∈ old, r.quotation_no = qno → ∀ v, revOf r.rev = some v → v < rev)
    (hnohdr : alreadyHasCustomer qno rev customersRes = false)
    (hsq : store (.str qno) = qno)
    (hsr : store (revCell rev) = (revCell rev).toStr)
    (hcells : ∀ item ∈ data.items,
      normalize env (.str (store (sanitize item.product_id))) = normalize env item.product_id ∧
      normalize env (.str (store (sanitize item.name))) = normalize env item.name ∧
      store item.price = item.price.toStr ∧ store item.quantity = item.quantity.toStr)
    (hheader : ∀ f ∈ customerFields,
      normalize env (.str (store (customerCell data f))) = normalize env (data.field f)) :
    addQuotation env { data with quotation_no := some qno }
        (old ++ (itemValues env qno rev data.items).map (itemRecordVia store))
        (customersRes ++ [customerRecordVia store (customerRow env qno rev data)]) =
      { status := .skipped
        quotation_no := qno
        rev := rev
        itemRows := []
        customerRows := [] } := by
  have hb : baseNo { data with quotation_no := some qno } = some qno := by
    simp [baseNo, hq]
  obtain ⟨i0, hi0⟩ := List.exists_mem_of_ne_nil _ hitems
  have hnew := itemRecordVia_itemValues store env qno rev data.items
  have hnewq : ∀ r ∈ (itemValues env qno rev data.items).map (itemRecordVia store),
      r.quotation_no = qno := by
    intro r hr
    obtain ⟨_, _, h, _⟩ := hnew r hr
    rw [h, hsq]
  have hnewrev : ∀ r ∈ (itemValues env qno rev data.items).map (itemRecordVia store),
      revOf r.rev = some rev := by
    intro r hr
    obtain ⟨_, _, _, h, _⟩ := hnew r hr
    exact revOf_of_text (h.trans hsr)
  have hr0 : itemRecordVia store
      [.str qno, revCell rev, .str env.issued_date, .str "Pending", sanitize i0.category,
        sanitize i0.product_id, sanitize i0.name, i0.price, i0.quantity,
        sanitize (i0.description.or (.str "")), i0.cost.or (.num 0)]
      ∈ (itemValues env qno rev data.items).map (itemRecordVia store) :=
    List.mem_map_of_mem _ (List.mem_map.2 ⟨i0, hi0, rfl⟩)
  -- the rows under `qno` after the append
  have hrel : relatedRows { data with quotation_no := some qno }
      (old ++ (itemValues env qno rev data.items).map (itemRecordVia store))
      = old.filter (fun r => r.quotation_no == qno)
        ++ (itemValues env qno rev data.items).map (itemRecordVia store) := by
    have hall : ((itemValues env qno rev data.items).map (itemRecordVia store)).filter
        (fun r => r.quotation_no == qno)
        = (itemValues env qno rev data.items).map (itemRecordVia store) := by
      rw [List.filter_eq_self]
      intro r hr
      simp [hnewq r hr]
    simp only [relatedRows, hb, bne_iff_ne, ne_eq, hqne, not_false_eq_true, if_true,
      List.filter_append, hall]
  have holdrev : ∀ r ∈ old.filter (fun r => r.quotation_no == qno), ∀ v,
      revOf r.rev = some v → v < rev := by
    intro r hr v hv
    have hr' := List.mem_filter.1 hr
    exact hold r hr'.1 (by simpa using hr'.2) v hv
  -- the revision number of the second call
  have hnr : newRev (old.filter (fun r => r.quotation_no == qno) ++
      (itemValues env qno rev data.items).map (itemRecordVia store)) - 1 = rev := by
    have hs0 := List.mem_append_right (old.filter (fun r => r.quotation_no == qno)) hr0
    obtain ⟨⟨r, hr, hrv⟩, hmax⟩ := newRev_of_some ⟨_, hs0, rev, hnewrev _ hr0⟩
    have hle := hmax _ hs0 rev (hnewrev _ hr0)
    rcases List.mem_append.1 hr with hr1 | hr1
    · have := holdrev r hr1 _ hrv
      omega
    · have := hnewrev r hr1
      rw [this] at hrv
      exact (Option.some.inj hrv).symm
  have hlatest : latestRows (old.filter (fun r => r.quotation_no == qno) ++
      (itemValues env qno rev data.items).map (itemRecordVia store))
      = (itemValues env qno rev data.items).map (itemRecordVia store) := by
    unfold latestRows
    rw [hnr, List.filter_append]
    have e1 : (old.filter (fun r => r.quotation_no == qno)).filter
        (fun r => revOf r.rev == some rev) = [] := by
      rw [List.filter_eq_nil_iff]
      intro r hr hrv
      have hrv' : revOf r.rev = some rev := by simpa using hrv
      have := holdrev r hr rev hrv'
      omega
    have e2 : ((itemValues env qno rev data.items).map (itemRecordVia store)).filter
        (fun r => revOf r.rev == some rev)
        = (itemValues env qno rev data.items).map (itemRecordVia store) := by
      rw [List.filter_eq_self]
      intro r hr
      simp [hnewrev r hr]
    rw [e1, e2, List.nil_append]
  have hres := addQuotation_duplicate env { data with quotation_no := some qno }
    (old ++ (itemValues env qno rev data.items).map (itemRecordVia store))
    (customersRes ++ [customerRecordVia store (customerRow env qno rev data)]) qno hb hqne
    ⟨_, List.mem_append_right _ hr0, hnewq _ hr0⟩
    (by
      rw [hrel, hlatest]
      intro item hitem
      refine ⟨itemRecordVia store
        [.str qno, revCell rev, .str env.issued_date, .str "Pending", sanitize item.category,
          sanitize item.product_id, sanitize item.name, item.price, item.quantity,
          sanitize (item.description.or (.str "")), item.cost.or (.num 0)],
        List.mem_map_of_mem _ (List.mem_map.2 ⟨item, hitem, rfl⟩), ?_⟩
      obtain ⟨h1, h2, h3, h4⟩ := hcells item hitem
      simp only [itemMatches, Bool.and_eq_true, beq_iff_eq]
      exact ⟨⟨⟨h1, h2⟩, h3⟩, h4⟩)
    (by rw [hrel, hlatest, List.length_map]; simp [itemValues])
    (by
      rw [hrel]
      refine ⟨customerRecordVia store (customerRow env qno rev data), ?_, ?_⟩
      · unfold latestCustomerRow
        rw [hnr, List.find?_append]
        have hnone : customersRes.find?
            (fun r => r.quotation_no == qno && revCellIs r.rev rev) = none := by
          rw [List.find?_eq_none]
          intro r hr hp
          have hany : alreadyHasCustomer qno rev customersRes = true :=
            List.any_eq_true.2 ⟨r, hr, hp⟩
          rw [hnohdr] at hany; cases hany
        rw [hnone]
        have e1 : (customerRecordVia store (customerRow env qno rev data)).quotation_no
            = store (.str qno) := rfl
        have e2 : (customerRecordVia store (customerRow env qno rev data)).rev
            = store (revCell rev) := rfl
        have hp : ((customerRecordVia store (customerRow env qno rev data)).quotation_no == qno
            && revCellIs (customerRecordVia store (customerRow env qno rev data)).rev rev)
            = true := by
          rw [e1, e2, hsq, revCellIs_of_text hsr]; simp
        simp [List.find?, hp]
      · intro f hf
        rw [customerRecordVia_get store env qno rev data f hf]
        exact (hheader f hf).symm)
  rw [hres, hrel, hnr]

/-! ## Resubmission -/

theorem numberToString_last (x : Option Int) :
    ∃ init l, (numberToString x).data = init ++ [l] ∧ isJsSpace l = false := by
  cases x with
  | none => exact ⟨['N', 'a'], 'N', rfl, by decide⟩
  | some z =>
    obtain ⟨ds, n, ⟨hne, hdig, _⟩, hd⟩ := intToString_chars z
    have hds : ds = ds.dropLast ++ [ds.getLast hne] := (List.dropLast_append_getLast hne).symm
    have hl : isJsSpace (ds.getLast hne) = false :=
      not_space_of_dec (hdig _ (List.getLast_mem hne))
    rcases hd with ⟨hd, _⟩ | ⟨hd, _⟩
    · exact ⟨ds.dropLast, ds.getLast hne, by rw [← hds]; exact hd, hl⟩
    · refine ⟨'-' :: ds.dropLast, ds.getLast hne, ?_, hl⟩
      rw [List.cons_append, ← hds]; exact hd

theorem jsTrim_newQuotationNo (env : Env) (itemsRes : List ItemRecord) :
    jsTrim (newQuotationNo env itemsRes) = newQuotationNo env itemsRes ∧
      newQuotationNo env itemsRes ≠ "" := by
  obtain ⟨init, l, hd, hl⟩ := numberToString_last (nextNumber env itemsRes)
  have hdata : ∃ t, (newQuotationNo env itemsRes).data = 'Q' :: t ∧
      'Q' :: t = (('Q' :: t).dropLast) ++ [l] := by
    have h1 : (newQuotationNo env itemsRes).data
        = 'Q' :: ('T' :: ((sliceLastTwo (toString env.fullYear)).data ++
            (padStartZero 2 (toString (env.month + 1))).data ++ ['T', '-'] ++
            (List.replicate (4 - (numberToString (nextNumber env itemsRes)).data.length) '0'
              ++ init)) ++ [l]) := by
      simp [newQuotationNo, monthPrefix, padStartZero, String.data_append, hd]
    refine ⟨_, h1, ?_⟩
    rw [← List.cons_append, List.dropLast_concat]
  obtain ⟨t, ht, hlast⟩ := hdata
  constructor
  · have : trimChars (newQuotationNo env itemsRes).data = (newQuotationNo env itemsRes).data := by
      rw [ht]; exact trimChars_self (by decide) hl hlast
    simp [jsTrim, this]
  · intro e; rw [e] at ht; cases ht

theorem customersAfter_writePath (env : Env) (data : Submission)
    (customersRes : List CustomerRecord) (qno : String) (rev : Int)
    (h : alreadyHasCustomer qno rev customersRes = false) :
    customersAfter customersRes (writePath env data customersRes qno rev)
      = customersRes ++ [customerRecordOfRow (customerRow env qno rev data)] := by
  simp [customersAfter, writePath, h]

/-- What an accepted call returns: the write path at the allocated number and rev 0, or
at the trimmed submitted number and `new_rev`, above rows of smaller revs. -/
theorem addQuotation_accepted (env : Env) (data : Submission) (itemsRes : List ItemRecord)
    (customersRes : List CustomerRecord)
    (hacc : (addQuotation env data itemsRes customersRes).status = .success) :
    (isNewDocument data itemsRes = true ∧
      addQuotation env data itemsRes customersRes
        = writePath env data customersRes (newQuotationNo env itemsRes) 0) ∨
    (isNewDocument data itemsRes = false ∧
      ∃ b, baseNo data = some b ∧ b ≠ "" ∧ jsTrim b = b ∧
        addQuotation env data itemsRes customersRes
          = writePath env data customersRes b (newRev (relatedRows data itemsRes)) ∧
        ∀ r ∈ itemsRes, r.quotation_no = b → ∀ v, revOf r.rev = some v →
          v < newRev (relatedRows data itemsRes)) := by
  cases hnew : isNewDocument data itemsRes with
  | true => exact Or.inl ⟨rfl, addQuotation_new env data itemsRes customersRes hnew⟩
  | false =>
    right
    obtain ⟨b, hb, hne, _, _⟩ := isNewDocument_eq_false hnew
    refine ⟨rfl, b, hb, hne, ?_, ?_, ?_⟩
    · cases hq : data.quotation_no with
      | none => simp [baseNo, hq] at hb
      | some s =>
        simp only [baseNo, hq, Option.map_some', Option.some.injEq] at hb
        rw [← hb, jsTrim_idem]
    · rw [addQuotation_revision env data itemsRes customersRes hnew] at hacc ⊢
      by_cases hd : isDuplicate env data ((baseNo data).getD "") (relatedRows data itemsRes)
          customersRes = true
      · rw [if_pos hd] at hacc; cases hacc
      · rw [if_neg hd, hb]; rfl
    · intro r hr hq v hv
      have hmem : r ∈ relatedRows data itemsRes := mem_relatedRows.2 ⟨hr, b, hb, hne, hq⟩
      have := (newRev_of_some ⟨r, hmem, v, hv⟩).2 r hmem v hv
      omega

/-- C4, as stated, fails in four ways. (1) The header sheet already holds a row for the
pair being written: the guard appends no header, and the second call compares with the
old row. (2) An item has no price: the stored cell is empty and `String(undefined)` is
not. (3) `customer_ref` is the number 0: the cell stores `''`, the comparison reads
`"0"`. (4) The allocated number is already in the item sheet: the second call finds the
older rows too. Each second call is accepted as revision 1 and appends rows. -/
theorem resubmission_not_always_duplicate :
    ((addQuotation jan2025 (acme none 2) [] [staleHeader]).status = .success ∧
      (resubmit jan2025 (fun q => acme q 2) [] [staleHeader]).status = .success ∧
      (resubmit jan2025 (fun q => acme q 2) [] [staleHeader]).rev = 1 ∧
      (resubmit jan2025 (fun q => acme q 2) [] [staleHeader]).itemRows ≠ []) ∧
    ((addQuotation jan2025 (noPriceBody none) [] []).status = .success ∧
      (resubmit jan2025 noPriceBody [] []).status = .success ∧
      (resubmit jan2025 noPriceBody [] []).rev = 1 ∧
      (resubmit jan2025 noPriceBody [] []).itemRows ≠ []) ∧
    ((addQuotation jan2025 (zeroRefBody none) [] []).status = .success ∧
      (resubmit jan2025 zeroRefBody [] []).status = .success ∧
      (resubmit jan2025 zeroRefBody [] []).rev = 1 ∧
      (resubmit jan2025 zeroRefBody [] []).itemRows ≠ []) ∧
    ((addQuotation jan2025 (acme none 2) overflowTable []).status = .success ∧
      (resubmit jan2025 (fun q => acme q 2) overflowTable []).status = .success ∧
      (resubmit jan2025 (fun q => acme q 2) overflowTable []).rev = 1 ∧
      (resubmit jan2025 (fun q => acme q 2) overflowTable []).itemRows ≠ []) := by
  decide

/-- C4, amended. Let a body with a non-empty item list be accepted on sheets where the
header sheet has no row for the reported pair and, when a new document was opened, the
item sheet has no row under the allocated number. Let the store return the quotation_no
and the rev of the appended rows as written, and every compared cell (product_id, name,
price and quantity of each item, the 18 header fields) as a text that the handler's own
comparison equates with the submitted value. Then, when the revs read by the second call
are safe integers and at most `spreadLimit` in number, the same body under the reported
number is answered `skipped` with the rev of the first acceptance, and no row is
appended. -/
theorem resubmission_is_duplicate (store : JsVal → String) (env : Env) (data : Submission)
    (itemsRes : List ItemRecord) (customersRes : List CustomerRecord)
    (hitems : data.items ≠ [])
    (hacc : (addQuotation env data itemsRes customersRes).status = .success)
    (hnohdr : alreadyHasCustomer (addQuotation env data itemsRes customersRes).quotation_no
      (addQuotation env data itemsRes customersRes).rev customersRes = false)
    (hfresh : isNewDocument data itemsRes = true →
      ∀ r ∈ itemsRes,
        r.quotation_no ≠ (addQuotation env data itemsRes customersRes).quotation_no)
    (hqno : store (.str (addQuotation env data itemsRes customersRes).quotation_no)
      = (addQuotation env data itemsRes customersRes).quotation_no)
    (hrev : store (revCell (addQuotation env data itemsRes customersRes).rev)
      = (revCell (addQuotation env data itemsRes customersRes).rev).toStr)
    (hcells : ∀ item ∈ data.items,
      normalize env (.str (store (sanitize item.product_id))) = normalize env item.product_id ∧
      normalize env (.str (store (sanitize item.name))) = normalize env item.name ∧
      store item.price = item.price.toStr ∧ store item.quantity = item.quantity.toStr)
    (hheader : ∀ f ∈ customerFields,
      normalize env (.str (store (customerCell data f))) = normalize env (data.field f))
    (hsafe : ∀ v ∈ existingRevs (relatedRows
        { data with
          quotation_no := some (addQuotation env data itemsRes customersRes).quotation_no }
        (itemsAfterVia store itemsRes (addQuotation env data itemsRes customersRes))),
      isSafeInteger v)
    (hspread : (existingRevs (relatedRows
        { data with
          quotation_no := some (addQuotation env data itemsRes customersRes).quotation_no }
        (itemsAfterVia store itemsRes (addQuotation env data itemsRes customersRes)))).length
      ≤ spreadLimit) :
    addQuotation env
        { data with
          quotation_no := some (addQuotation env data itemsRes customersRes).quotation_no }
        (itemsAfterVia store itemsRes (addQuotation env data itemsRes customersRes))
        (customersAfterVia store customersRes (addQuotation env data itemsRes customersRes)) =
      { status := .skipped
        quotation_no := (addQuotation env data itemsRes customersRes).quotation_no
        rev := (addQuotation env data itemsRes customersRes).rev
        itemRows := []
        customerRows := [] } := by
  have _ := hsafe
  have _ := hspread
  rcases addQuotation_accepted env data itemsRes customersRes hacc with
    ⟨hnew, ho⟩ | ⟨_, b, _, hne, htrim, ho, hold⟩
  · have hfresh' := hfresh hnew
    rw [ho] at hnohdr hfresh' hqno hrev ⊢
    obtain ⟨htrim, hne⟩ := jsTrim_newQuotationNo env itemsRes
    have hafter : customersAfterVia store customersRes
        (writePath env data customersRes (newQuotationNo env itemsRes) 0)
        = customersRes ++
          [customerRecordVia store (customerRow env (newQuotationNo env itemsRes) 0 data)] := by
      have h0 : alreadyHasCustomer (newQuotationNo env itemsRes) 0 customersRes = false :=
        hnohdr
      simp [customersAfterVia, writePath, h0]
    rw [hafter]
    exact addQuotation_again store env data _ 0 itemsRes customersRes htrim hne hitems
      (fun r hr hq => absurd hq (hfresh' r hr)) hnohdr hqno hrev hcells hheader
  · rw [ho] at hnohdr hqno hrev ⊢
    have hafter : customersAfterVia store customersRes
        (writePath env data customersRes b (newRev (relatedRows data itemsRes)))
        = customersRes ++
          [customerRecordVia store
            (customerRow env b (newRev (relatedRows data itemsRes)) data)] := by
      have h0 : alreadyHasCustomer b (newRev (relatedRows data itemsRes)) customersRes
          = false := hnohdr
      simp [customersAfterVia, writePath, h0]
    rw [hafter]
    exact addQuotation_again store env data b _ itemsRes customersRes htrim hne hitems hold
      hnohdr hqno hrev hcells hheader

/-- C4, amended, at the widget body on empty sheets in January 2025, with the store that
keeps what it is given. -/
theorem resubmission_is_duplicate_witness :
    addQuotation jan2025
        { acme none 2 with
          quotation_no := some (addQuotation jan2025 (acme none 2) [] []).quotation_no }
        (itemsAfterVia cellText [] (addQuotation jan2025 (acme none 2) [] []))
        (customersAfterVia cellText [] (addQuotation jan2025 (acme none 2) [] [])) =
      { status := .skipped
        quotation_no := (addQuotation jan2025 (acme none 2) [] []).quotation_no
        rev := (addQuotation jan2025 (acme none 2) [] []).rev
        itemRows := []
        customerRows := [] } :=
  resubmission_is_duplicate cellText jan2025 (acme none 2) [] [] (by decide) (by decide)
    (by decide) (by decide) (by decide) (by decide) (by decide) (by decide) (by decide)
    (by decide)

theorem isNewDocument_of_mem {data : Submission} {itemsRes : List ItemRecord} {b : String}
    {r : ItemRecord} (hb : baseNo data = some b) (hne : b ≠ "") (hr : r ∈ itemsRes)
    (hq : r.quotation_no = b) : isNewDocument data itemsRes = false := by
  have hmem : r ∈ relatedRows data itemsRes := mem_relatedRows.2 ⟨hr, b, hb, hne, hq⟩
  have hlen : (relatedRows data itemsRes).length ≠ 0 := by
    intro e; rw [List.length_eq_zero] at e; rw [e] at hmem; simp at hmem
  simp [isNewDocument, hb, hne, hlen]

/-- C9. Sequence monotonicity: when the rows under `q` carry exactly the revs `0..k` (an
empty cell being 0), an accepted resubmission for `q` with a non-empty item list reports
rev `k + 1` and appends one row per item, each under `q` with rev `k + 1`; afterwards
the revs under `q` are exactly `0..k+1`. -/
theorem revision_sequence (env : Env) (data : Submission) (itemsRes : List ItemRecord)
    (customersRes : List CustomerRecord) (q : String) (k : Nat)
    (hq : baseNo data = some q) (hne : q ≠ "")
    (hrange : ∀ r ∈ itemsRes, r.quotation_no = q →
      ∃ v : Nat, v ≤ k ∧ revOf r.rev = some (v : Int))
    (hall : ∀ v : Nat, v ≤ k →
      ∃ r ∈ itemsRes, r.quotation_no = q ∧ revOf r.rev = some (v : Int))
    (hitems : data.items ≠ [])
    (hacc : (addQuotation env data itemsRes customersRes).status = .success) :
    (addQuotation env data itemsRes customersRes).rev = (k : Int) + 1 ∧
    (addQuotation env data itemsRes customersRes).itemRows.length = data.items.length ∧
    (∀ row ∈ (addQuotation env data itemsRes customersRes).itemRows,
      (itemRecordOfRow row).quotation_no = q ∧
      revOf (itemRecordOfRow row).rev = some ((k : Int) + 1)) ∧
    (∀ r ∈ itemsAfter itemsRes (addQuotation env data itemsRes customersRes),
      r.quotation_no = q → ∃ v : Nat, v ≤ k + 1 ∧ revOf r.rev = some (v : Int)) ∧
    (∀ v : Nat, v ≤ k + 1 →
      ∃ r ∈ itemsAfter itemsRes (addQuotation env data itemsRes customersRes),
        r.quotation_no = q ∧ revOf r.rev = some (v : Int)) := by
  obtain ⟨r0, hr0, hq0, hv0⟩ := hall 0 (Nat.zero_le k)
  have hnew : isNewDocument data itemsRes = false := isNewDocument_of_mem hq hne hr0 hq0
  rcases addQuotation_accepted env data itemsRes customersRes hacc with
    ⟨hnew', _⟩ | ⟨_, b, hb, _, _, ho, _⟩
  · rw [hnew] at hnew'; cases hnew'
  have hbq : b = q := by rw [hq] at hb; exact (Option.some.inj hb).symm
  subst hbq
  have hrel : ∀ r, r ∈ itemsRes → r.quotation_no = b → r ∈ relatedRows data itemsRes :=
    fun r hr hrq => mem_relatedRows.2 ⟨hr, b, hq, hne, hrq⟩
  have hnr : newRev (relatedRows data itemsRes) = (k : Int) + 1 := by
    obtain ⟨⟨r, hr, hrv⟩, hmax⟩ := newRev_of_some ⟨r0, hrel r0 hr0 hq0, _, hv0⟩
    obtain ⟨hr1, b', hb', _, hrq⟩ := mem_relatedRows.1 hr
    have hbb : b' = b := by rw [hq] at hb'; exact (Option.some.inj hb').symm
    obtain ⟨v, hvk, hv⟩ := hrange r hr1 (by rw [hrq, hbb])
    rw [hv] at hrv
    have h1 : (v : Int) = newRev (relatedRows data itemsRes) - 1 := Option.some.inj hrv
    obtain ⟨rk, hrk, hqk, hvk'⟩ := hall k (le_refl k)
    have h2 := hmax rk (hrel rk hrk hqk) _ hvk'
    omega
  rw [ho, hnr]
  have hstored : ∀ r ∈ (itemValues env b ((k : Int) + 1) data.items).map itemRecordOfRow,
      r.quotation_no = b ∧ revOf r.rev = some ((k : Int) + 1) := by
    intro r hr
    rw [map_itemRecordOfRow] at hr
    obtain ⟨i, _, rfl⟩ := List.mem_map.1 hr
    refine ⟨rfl, ?_⟩
    show revOf (cellText (revCell ((k : Int) + 1))) = some ((k : Int) + 1)
    exact revOf_revCell ((k : Int) + 1)
  refine ⟨rfl, ?_, ?_, ?_, ?_⟩
  · simp [writePath, itemValues]
  · intro row hrow
    exact hstored _ (List.mem_map_of_mem _ hrow)
  · intro r hr hrq
    rcases List.mem_append.1 hr with h | h
    · obtain ⟨v, hvk, hv⟩ := hrange r h hrq
      exact ⟨v, by omega, hv⟩
    · exact ⟨k + 1, le_refl _, by rw [(hstored r h).2]; simp⟩
  · intro v hv
    by_cases hvk : v ≤ k
    · obtain ⟨r, hr, hrq, hrv⟩ := hall v hvk
      exact ⟨r, List.mem_append_left _ hr, hrq, hrv⟩
    · have hv' : v = k + 1 := by omega
      subst hv'
      obtain ⟨i0, hi0⟩ := List.exists_mem_of_ne_nil _ hitems
      have hmem : itemRecordOfRow
          [.str b, revCell ((k : Int) + 1), .str env.issued_date, .str "Pending",
            sanitize i0.category, sanitize i0.product_id, sanitize i0.name, i0.price,
            i0.quantity, sanitize (i0.description.or (.str "")), i0.cost.or (.num 0)]
          ∈ (itemValues env b ((k : Int) + 1) data.items).map itemRecordOfRow :=
        List.mem_map_of_mem _ (List.mem_map.2 ⟨i0, hi0, rfl⟩)
      refine ⟨_, List.mem_append_right _ hmem, (hstored _ hmem).1, ?_⟩
      rw [(hstored _ hmem).2]; simp

/-- C9, at the widget quotation holding revision 0 only, resubmitted with quantity 3:
rev 1 is reported and revision 1 joins revision 0. -/
theorem revision_sequence_witness :
    (addQuotation jan2025 (acme (some "QT2501T-0001") 3) sparseTable
      [acmeHeader "QT2501T-0001"]).rev = ((0 : Nat) : Int) + 1 ∧
    (∀ v : Nat, v ≤ 0 + 1 →
      ∃ r ∈ itemsAfter sparseTable (addQuotation jan2025 (acme (some "QT2501T-0001") 3)
          sparseTable [acmeHeader "QT2501T-0001"]),
        r.quotation_no = "QT2501T-0001" ∧ revOf r.rev = some (v : Int)) :=
  have h := revision_sequence jan2025 (acme (some "QT2501T-0001") 3) sparseTable
    [acmeHeader "QT2501T-0001"] "QT2501T-0001" 0 (by decide) (by decide)
    (by
      intro r hr hq
      refine ⟨0, le_refl 0, ?_⟩
      simp only [sparseTable, List.mem_cons, List.mem_singleton, List.not_mem_nil,
        or_false] at hr
      rcases hr with rfl | rfl
      · decide
      · exact absurd hq (by decide))
    (by
      intro v hv
      have : v = 0 := by omega
      subst this
      exact ⟨itemRow "QT2501T-0001" "" "A1" "Widget" "10" "2", by simp [sparseTable],
        by decide, by decide⟩)
    (by decide) (by decide)
  ⟨h.1, h.2.2.2.2⟩

/-! ## Escaping -/

theorem startsWith_trim_of_head {s : String} {c : Char} (hc : isJsSpace c = false)
    (h : s.data.head? = some c) : startsWith (jsTrim s) (String.singleton c) = true := by
  cases hs : s.data with
  | nil => rw [hs] at h; cases h
  | cons x t =>
    rw [hs] at h
    simp only [List.head?_cons, Option.some.injEq] at h
    subst h
    obtain ⟨t', ht'⟩ := trimChars_cons_of_neg (t := t) hc
    simp [startsWith, jsTrim, hs, ht', String.singleton]

/-- C11. The function `sanitize`: a string whose first character is `=` or `+` comes back
with one apostrophe in front; a string whose trimmed form starts with neither character
comes back unchanged, and so does every value that is not a string. -/
theorem sanitize_spec :
    (∀ s : String, (s.data.head? = some '=' ∨ s.data.head? = some '+') →
      sanitize (.str s) = .str (String.singleton apostrophe ++ s)) ∧
    (∀ s : String, startsWith (jsTrim s) "=" = false → startsWith (jsTrim s) "+" = false →
      sanitize (.str s) = .str s) ∧
    (∀ v : JsVal, (∀ s, v ≠ .str s) → sanitize v = v) := by
  refine ⟨?_, ?_, ?_⟩
  · intro s h
    have : (startsWith (jsTrim s) "=" || startsWith (jsTrim s) "+") = true := by
      rcases h with h | h
      · have := startsWith_trim_of_head (c := '=') (by decide) h
        simp only [Bool.or_eq_true]; left; exact this
      · have := startsWith_trim_of_head (c := '+') (by decide) h
        simp only [Bool.or_eq_true]; right; exact this
    simp [sanitize, this]
  · intro s h1 h2
    simp [sanitize, h1, h2]
  · intro v hv
    cases v with
    | str s => exact absurd rfl (hv s)
    | undefined => rfl
    | null => rfl
    | num n => rfl

/-- C12. The body whose item has the price `"=1+1"` is accepted, and the item row handed
to `values.append` carries that price unescaped in its eighth cell: a string taken from
the submission that begins with `=`. -/
theorem price_reaches_store_unescaped :
    (addQuotation jan2025 formulaPriceBody [] []).status = .success ∧
    (∃ row ∈ (addQuotation jan2025 formulaPriceBody [] []).itemRows,
      row[7]? = some (.str "=1+1") ∧ startsWith "=1+1" "=" = true) := by
  decide

/-! ## The header guard -/

theorem toString_int_injective {a b : Int} (h : toString a = toString b) : a = b := by
  have h1 := parseInt_toString a
  rw [h, parseInt_toString b] at h1
  exact (Option.some.inj h1).symm

theorem revCellIs_revCell_iff (rev r : Int) :
    revCellIs (cellText (revCell rev)) r = true ↔ r = rev := by
  by_cases h : rev = 0
  · subst h
    have : revCellIs (cellText (revCell 0)) r = ("0" == toString r) := rfl
    rw [this, beq_iff_eq]
    constructor
    · intro e
      have e' : toString (0 : Int) = toString r := e
      exact (toString_int_injective e').symm
    · intro e; subst e; rfl
  · have hne := intToString_ne_empty rev
    simp only [revCell, h, if_false, cellText, revCellIs, bne_iff_ne, ne_eq, hne,
      not_false_eq_true, if_true, beq_iff_eq]
    constructor
    · intro e; exact (toString_int_injective e).symm
    · intro e; subst e; rfl

theorem headerCount_append (qno : String) (rev : Int) (a b : List CustomerRecord) :
    headerCount qno rev (a ++ b) = headerCount qno rev a + headerCount qno rev b := by
  simp [headerCount, List.filter_append]

theorem headerCount_stored (env : Env) (data : Submission) (qno q : String) (rev r : Int) :
    headerCount q r [customerRecordOfRow (customerRow env qno rev data)]
      = if q = qno ∧ r = rev then 1 else 0 := by
  have e1 : (customerRecordOfRow (customerRow env qno rev data)).quotation_no = qno := rfl
  have e2 : (customerRecordOfRow (customerRow env qno rev data)).rev
      = cellText (revCell rev) := rfl
  by_cases hq : q = qno
  · by_cases hr : r = rev
    · subst hq; subst hr
      have := (revCellIs_revCell_iff r r).2 rfl
      simp [headerCount, List.filter, e1, e2, this]
    · have : revCellIs (cellText (revCell rev)) r = false := by
        rw [Bool.eq_false_iff]; intro h; exact hr ((revCellIs_revCell_iff rev r).1 h)
      simp [headerCount, List.filter, e1, e2, hq, hr, this]
  · have : (qno == q) = false := by simp [Ne.symm hq]
    simp [headerCount, List.filter, e1, hq, this]

theorem alreadyHasCustomer_iff (qno : String) (rev : Int) (customersRes : List CustomerRecord) :
    alreadyHasCustomer qno rev customersRes = true ↔ 0 < headerCount qno rev customersRes := by
  simp only [alreadyHasCustomer, headerCount, List.any_eq_true, List.length_pos]
  constructor
  · rintro ⟨row, hrow, hp⟩
    exact List.ne_nil_of_mem (List.mem_filter.2 ⟨hrow, hp⟩)
  · intro h
    obtain ⟨row, hrow⟩ := List.exists_mem_of_ne_nil _ h
    exact ⟨row, (List.mem_filter.1 hrow).1, (List.mem_filter.1 hrow).2⟩

theorem addQuotation_writePath (env : Env) (data : Submission) (itemsRes : List ItemRecord)
    (customersRes : List CustomerRecord)
    (hacc : (addQuotation env data itemsRes customersRes).status = .success) :
    addQuotation env data itemsRes customersRes
      = writePath env data customersRes (addQuotation env data itemsRes customersRes).quotation_no
          (addQuotation env data itemsRes customersRes).rev := by
  rcases addQuotation_accepted env data itemsRes customersRes hacc with
    ⟨_, ho⟩ | ⟨_, b, _, _, _, ho, _⟩
  · rw [ho]; rfl
  · rw [ho]; rfl

/-- C13. Header idempotence guard: an accepted submission appends the one header row of
the reported pair when the loaded header sheet has no row for that pair (an empty rev cell
being rev 0) and appends none when it has one. Hence, if the header sheet had at most one
row per pair, it has at most one row per pair afterwards and exactly one for the pair
just written. -/
theorem header_guard (env : Env) (data : Submission) (itemsRes : List ItemRecord)
    (customersRes : List CustomerRecord)
    (hacc : (addQuotation env data itemsRes customersRes).status = .success) :
    (headerCount (addQuotation env data itemsRes customersRes).quotation_no
        (addQuotation env data itemsRes customersRes).rev customersRes = 0 →
      (addQuotation env data itemsRes customersRes).customerRows
        = [customerRow env (addQuotation env data itemsRes customersRes).quotation_no
            (addQuotation env data itemsRes customersRes).rev data]) ∧
    (0 < headerCount (addQuotation env data itemsRes customersRes).quotation_no
        (addQuotation env data itemsRes customersRes).rev customersRes →
      (addQuotation env data itemsRes customersRes).customerRows = []) ∧
    ((∀ q r, headerCount q r customersRes ≤ 1) →
      (∀ q r, headerCount q r
        (customersAfter customersRes (addQuotation env data itemsRes customersRes)) ≤ 1) ∧
      headerCount (addQuotation env data itemsRes customersRes).quotation_no
        (addQuotation env data itemsRes customersRes).rev
        (customersAfter customersRes (addQuotation env data itemsRes customersRes)) = 1) := by
  have ho := addQuotation_writePath env data itemsRes customersRes hacc
  generalize (addQuotation env data itemsRes customersRes).quotation_no = qno at ho ⊢
  generalize (addQuotation env data itemsRes customersRes).rev = rev at ho ⊢
  rw [ho]
  have hiff := alreadyHasCustomer_iff qno rev customersRes
  refine ⟨?_, ?_, ?_⟩
  · intro h0
    have : alreadyHasCustomer qno rev customersRes = false := by
      rw [Bool.eq_false_iff]; intro h; have := hiff.1 h; omega
    simp [writePath, this]
  · intro hpos
    simp [writePath, hiff.2 hpos]
  · intro hone
    by_cases hhas : alreadyHasCustomer qno rev customersRes = true
    · have hafter : customersAfter customersRes (writePath env data customersRes qno rev)
          = customersRes := by simp [customersAfter, writePath, hhas]
      rw [hafter]
      have := hiff.1 hhas
      have := hone qno rev
      exact ⟨hone, by omega⟩
    · have hfalse : alreadyHasCustomer qno rev customersRes = false := by
        simpa using hhas
      have hzero : headerCount qno rev customersRes = 0 := by
        by_contra hne
        exact hhas (hiff.2 (Nat.pos_of_ne_zero hne))
      rw [customersAfter_writePath env data customersRes qno rev hfalse]
      constructor
      · intro q r
        rw [headerCount_append, headerCount_stored]
        by_cases hqr : q = qno ∧ r = rev
        · rw [if_pos hqr, hqr.1, hqr.2, hzero]
        · rw [if_neg hqr]; have := hone q r; omega
      · rw [headerCount_append, headerCount_stored, hzero]; simp

/-- C13, at the widget body on empty sheets: one header row is appended and the pair
`(QT2501T-0001, 0)` has exactly one header row afterwards. -/
theorem header_guard_witness :
    (addQuotation jan2025 (acme none 2) [] []).customerRows
      = [customerRow jan2025 "QT2501T-0001" 0 (acme none 2)] ∧
    headerCount "QT2501T-0001" 0
      (customersAfter [] (addQuotation jan2025 (acme none 2) [] [])) = 1 :=
  have h := header_guard jan2025 (acme none 2) [] [] (by decide)
  ⟨h.1 (by decide), (h.2.2 (fun _ _ => Nat.zero_le 1)).2⟩

/-! ## `findIndex` and indexed filters -/

theorem findIndex_eq_none {α : Type} {p : α → Bool} {xs : List α} :
    findIndex p xs = none ↔ ∀ x ∈ xs, p x = false := by
  induction xs with
  | nil => simp [findIndex]
  | cons x xs ih =>
    by_cases hx : p x = true
    · simp [findIndex, hx]
    · have hx' : p x = false := by simpa using hx
      simp [findIndex, hx', ih]

theorem findIndex_eq_some {α : Type} {p : α → Bool} {xs : List α} {i : Nat}
    (h : findIndex p xs = some i) :
    (∃ x, xs[i]? = some x ∧ p x = true) ∧
      ∀ j, j < i → ∀ y, xs[j]? = some y → p y = false := by
  induction xs generalizing i with
  | nil => simp [findIndex] at h
  | cons x xs ih =>
    by_cases hx : p x = true
    · simp only [findIndex, hx, if_true, Option.some.injEq] at h
      subst h
      exact ⟨⟨x, by simp, hx⟩, fun j hj => absurd hj (Nat.not_lt_zero j)⟩
    · have hx' : p x = false := by simpa using hx
      simp only [findIndex, hx', Bool.false_eq_true, if_false, Option.map_eq_some'] at h
      obtain ⟨k, hk, rfl⟩ := h
      obtain ⟨⟨y, hy, hpy⟩, hlt⟩ := ih hk
      refine ⟨⟨y, by simpa using hy, hpy⟩, ?_⟩
      intro j hj z hz
      cases j with
      | zero => simp at hz; subst hz; exact hx'
      | succ j => exact hlt j (by omega) z (by simpa using hz)

theorem findIndex_of_first {α : Type} {p : α → Bool} {xs : List α} {i : Nat} {x : α}
    (hx : xs[i]? = some x) (hp : p x = true)
    (hlt : ∀ j, j < i → ∀ y, xs[j]? = some y → p y = false) : findIndex p xs = some i := by
  cases h : findIndex p xs with
  | none =>
    have := findIndex_eq_none.1 h x (List.getElem?_mem hx)
    rw [hp] at this; cases this
  | some k =>
    obtain ⟨⟨y, hy, hpy⟩, hk⟩ := findIndex_eq_some h
    rcases Nat.lt_trichotomy k i with hki | hki | hki
    · have := hlt k hki y hy; rw [hpy] at this; cases this
    · rw [hki]
    · have := hk i hki x hx; rw [hp] at this; cases this

theorem mem_updates1 {quotation_no rev : JsVal} {rows1 : List (List String)} {i : Nat} :
    i ∈ updates1 quotation_no rev rows1 ↔
      ∃ row, rows1[i]? = some row ∧ statusRowMatches quotation_no rev row = true := by
  simp only [updates1, List.mem_map, List.mem_filter, Prod.exists]
  constructor
  · rintro ⟨a, row, ⟨hmem, hp⟩, rfl⟩
    have := List.mk_mem_enumFrom_iff_le_and_getElem?_sub.1 hmem
    exact ⟨row, by simpa using this.2, hp⟩
  · rintro ⟨row, hrow, hp⟩
    have hmem : (i, row) ∈ rows1.enumFrom 0 :=
      List.mk_mem_enumFrom_iff_le_and_getElem?_sub.2 ⟨Nat.zero_le i, by simpa using hrow⟩
    exact ⟨i, row, ⟨hmem, hp⟩, rfl⟩

theorem statusRowMatches_iff {quotation_no rev : JsVal} {row : List String} :
    statusRowMatches quotation_no rev row = true ↔
      jsCell row 0 = quotation_no ∧ row[1]? = some rev.toStr := by
  simp [statusRowMatches]

theorem jsCell_of_some {row : List String} {i : Nat} {s : String} (h : row[i]? = some s) :
    jsCell row i = .str s := by
  simp [jsCell, h]

/-! ## The status update -/

theorem mem_updateQuotationStatus {quotation_no rev status : JsVal}
    {values1 values2 : List (List String)} {w : CellWrite} :
    w ∈ updateQuotationStatus quotation_no rev status values1 values2 ↔
      (∃ i ∈ updates1 quotation_no rev values1.tail,
        w = { sheet := .items, column := 'D', row := i + 2, value := status }) ∨
      (∃ j, findIndex (statusRowMatches quotation_no rev) values2.tail = some j ∧
        w = { sheet := .customers, column := 'D', row := j + 2, value := status }) := by
  unfold updateQuotationStatus
  simp only [List.mem_append, List.mem_map]
  constructor
  · rintro (⟨i, hi, rfl⟩ | h)
    · exact Or.inl ⟨i, hi, rfl⟩
    · cases hf : findIndex (statusRowMatches quotation_no rev) values2.tail with
      | none => rw [hf] at h; simp at h
      | some j =>
        rw [hf] at h
        simp only [List.mem_singleton] at h
        exact Or.inr ⟨j, rfl, h⟩
  · rintro (⟨i, hi, rfl⟩ | ⟨j, hj, rfl⟩)
    · exact Or.inl ⟨i, hi, rfl⟩
    · right; rw [hj]; simp

/-- C14, as stated, fails at rev 0: on the two sheets the write path left for the widget
quotation, whose rev cells are empty, the update for `(QT2501T-0001, 0)` compares the
cells with `"0"` and emits no write. -/
theorem status_update_misses_rev_zero :
    updateQuotationStatus (.str "QT2501T-0001") (.num 0) (.str "Approved") widgetItemSheet
      widgetCustomerSheet = [] := by
  decide

/-- C14, amended. The update emits a status write for every item row whose first cell is
`quotation_no` and whose rev cell is the text of `rev`, and for the first such header
row, whatever the other cells hold. The rows the write path appends carry the number in
the first cell and `revCell` in the second: the number for a revision from 1 on, whose
text is its decimal numeral, and the empty string for revision 0. So the pair is
addressed by the value the write path put in the rev cell; with `rev = 0` no row with an
empty rev cell is matched. -/
theorem status_update_targets (quotation_no rev status : JsVal)
    (values1 values2 : List (List String)) :
    (∀ (i : Nat) (row : List String), values1.tail[i]? = some row →
      jsCell row 0 = quotation_no → row[1]? = some rev.toStr →
      { sheet := .items, column := 'D', row := i + 2, value := status }
        ∈ updateQuotationStatus quotation_no rev status values1 values2) ∧
    (∀ (j : Nat) (row : List String), values2.tail[j]? = some row →
      jsCell row 0 = quotation_no → row[1]? = some rev.toStr →
      (∀ k, k < j → ∀ r, values2.tail[k]? = some r →
        ¬ (jsCell r 0 = quotation_no ∧ r[1]? = some rev.toStr)) →
      { sheet := .customers, column := 'D', row := j + 2, value := status }
        ∈ updateQuotationStatus quotation_no rev status values1 values2) ∧
    (∀ (env : Env) (qno : String) (n : Int) (items : List Item),
      ∀ row ∈ itemValues env qno n items,
        row[0]? = some (.str qno) ∧ row[1]? = some (revCell n)) ∧
    (∀ (env : Env) (qno : String) (n : Int) (data : Submission),
      (customerRow env qno n data)[0]? = some (.str qno) ∧
      (customerRow env qno n data)[1]? = some (revCell n)) ∧
    (∀ n : Int, n ≠ 0 → revCell n = .num n ∧ (revCell n).toStr = toString n) ∧
    (revCell 0 = .str "" ∧ (revCell 0).toStr = "") ∧
    (∀ row : List String, row[1]? = some "" →
      statusRowMatches quotation_no (.num 0) row = false) := by
  refine ⟨?_, ?_, ?_, fun _ _ _ _ => ⟨rfl, rfl⟩, ?_, ⟨rfl, rfl⟩, ?_⟩
  · intro i row hi h0 h1
    exact mem_updateQuotationStatus.2
      (Or.inl ⟨i, mem_updates1.2 ⟨row, hi, statusRowMatches_iff.2 ⟨h0, h1⟩⟩, rfl⟩)
  · intro j row hj h0 h1 hfirst
    refine mem_updateQuotationStatus.2 (Or.inr ⟨j, ?_, rfl⟩)
    refine findIndex_of_first hj (statusRowMatches_iff.2 ⟨h0, h1⟩) ?_
    intro k hk r hr
    rw [Bool.eq_false_iff]
    exact fun hm => hfirst k hk r hr (statusRowMatches_iff.1 hm)
  · intro env qno n items row hrow
    obtain ⟨item, _, rfl⟩ := List.mem_map.1 hrow
    exact ⟨rfl, rfl⟩
  · intro n hn
    simp [revCell, hn, JsVal.toStr]
  · intro row hrow
    have h1 : (JsVal.num 0).toStr = "0" := rfl
    simp [statusRowMatches, hrow, h1]

/-- C14, amended, on sheets holding the original of QT2501T-0001, approved since, and
its revision 1 of two items: the update for revision 1 writes to item rows 4 and 5 and
to header row 4, and the update with the empty rev writes to row 2 of both sheets. -/
theorem status_update_targets_witness :
    ({ sheet := .items, column := 'D', row := 4, value := .str "Rejected" } : CellWrite)
      ∈ updateQuotationStatus (.str "QT2501T-0001") (.num 1) (.str "Rejected")
          revisedItemSheet revisedCustomerSheet ∧
    ({ sheet := .items, column := 'D', row := 5, value := .str "Rejected" } : CellWrite)
      ∈ updateQuotationStatus (.str "QT2501T-0001") (.num 1) (.str "Rejected")
          revisedItemSheet revisedCustomerSheet ∧
    ({ sheet := .customers, column := 'D', row := 4, value := .str "Rejected" } : CellWrite)
      ∈ updateQuotationStatus (.str "QT2501T-0001") (.num 1) (.str "Rejected")
          revisedItemSheet revisedCustomerSheet ∧
    ({ sheet := .items, column := 'D', row := 2, value := .str "Pending" } : CellWrite)
      ∈ updateQuotationStatus (.str "QT2501T-0001") (.str "") (.str "Pending")
          revisedItemSheet revisedCustomerSheet ∧
    ({ sheet := .customers, column := 'D', row := 2, value := .str "Pending" } : CellWrite)
      ∈ updateQuotationStatus (.str "QT2501T-0001") (.str "") (.str "Pending")
          revisedItemSheet revisedCustomerSheet :=
  have h1 := status_update_targets (.str "QT2501T-0001") (.num 1) (.str "Rejected")
    revisedItemSheet revisedCustomerSheet
  have h0 := status_update_targets (.str "QT2501T-0001") (.str "") (.str "Pending")
    revisedItemSheet revisedCustomerSheet
  ⟨h1.1 2 _ rfl rfl rfl, h1.1 3 _ rfl rfl rfl, h1.2.1 2 _ rfl rfl rfl (by decide),
   h0.1 0 _ rfl rfl rfl, h0.2.1 0 _ rfl rfl rfl (by decide)⟩

/-! ## The frame of the status update -/

theorem cellOrEmpty_setCell_of_ne (row : List String) (c c' : Nat) (v : String)
    (h : c' ≠ c) : cellOrEmpty (setCell row c v) c' = cellOrEmpty row c' := by
  simp only [cellOrEmpty, setCell]
  rw [List.getElem?_set_ne (Ne.symm h), List.getElem?_append]
  by_cases hlt : c' < row.length
  · simp [hlt]
  · have hnone : row[c']? = none := List.getElem?_eq_none (by omega)
    simp only [hlt, if_false, hnone, List.getElem?_replicate, Option.getD_none]
    split <;> rfl

theorem getD_pad (values : List (List String)) (n r : Nat) :
    (values ++ List.replicate n []).getD r [] = values.getD r [] := by
  simp only [List.getD_eq_getElem?_getD, List.getElem?_append]
  by_cases hlt : r < values.length
  · simp [hlt]
  · have hnone : values[r]? = none := List.getElem?_eq_none (by omega)
    simp only [hlt, if_false, hnone, List.getElem?_replicate, Option.getD_none]
    split <;> rfl

theorem cellAtIndex_applyWrite_of_ne (values : List (List String)) (w : CellWrite) (r c : Nat)
    (h : r ≠ w.row - 1 ∨ c ≠ columnIndex w.column) :
    cellAtIndex (applyWrite values w) r c = cellAtIndex values r c := by
  simp only [cellAtIndex, applyWrite]
  by_cases hr : r = w.row - 1
  · have hc : c ≠ columnIndex w.column := by
      rcases h with h | h
      · exact absurd hr h
      · exact h
    subst hr
    rw [List.getD_eq_getElem?_getD, List.getElem?_set]
    simp only [if_true]
    split
    · simp only [Option.getD_some]
      rw [cellOrEmpty_setCell_of_ne _ _ _ _ hc, getD_pad]
    · simp only [Option.getD_none]
      rename_i hlen
      have hnone : values[w.row - 1]? = none := by
        apply List.getElem?_eq_none
        simp only [List.length_append, List.length_replicate] at hlen
        omega
      simp [List.getD_eq_getElem?_getD, hnone]
  · rw [List.getD_eq_getElem?_getD, List.getElem?_set_ne (Ne.symm hr),
      ← List.getD_eq_getElem?_getD, getD_pad]

theorem cellAtIndex_foldl_applyWrite (ws : List CellWrite) :
    ∀ (values : List (List String)) (r c : Nat),
      cellAtIndex (ws.foldl applyWrite values) r c ≠ cellAtIndex values r c →
      ∃ w ∈ ws, r = w.row - 1 ∧ c = columnIndex w.column := by
  induction ws with
  | nil => intro values r c h; exact absurd rfl h
  | cons w ws ih =>
    intro values r c h
    simp only [List.foldl_cons] at h
    by_cases hw : r = w.row - 1 ∧ c = columnIndex w.column
    · exact ⟨w, by simp, hw⟩
    · have hne : r ≠ w.row - 1 ∨ c ≠ columnIndex w.column := by
        by_cases h1 : r = w.row - 1
        · right; intro h2; exact hw ⟨h1, h2⟩
        · left; exact h1
      rw [← cellAtIndex_applyWrite_of_ne values w r c hne] at h
      obtain ⟨w', hw', hrc⟩ := ih _ r c h
      exact ⟨w', by simp [hw'], hrc⟩

theorem updates1_nodup (quotation_no rev : JsVal) (rows1 : List (List String)) :
    (updates1 quotation_no rev rows1).Nodup := by
  have h : ∀ (n : Nat) (l : List (List String)),
      (((l.enumFrom n).filter (fun p => statusRowMatches quotation_no rev p.2)).map
        (fun p => p.1)).Nodup := by
    intro n l
    have hsub : (((l.enumFrom n).filter (fun p => statusRowMatches quotation_no rev p.2)).map
        (fun p => p.1)).Sublist ((l.enumFrom n).map (fun p => p.1)) :=
      (List.filter_sublist _).map _
    refine hsub.nodup ?_
    have : (l.enumFrom n).map (fun p => p.1) = List.range' n l.length := by
      exact List.enumFrom_map_fst n l
    rw [this]
    exact List.nodup_range' n l.length
  exact h 0 rows1

/-- C15. Status update frame: every write is the single cell of column D in store row
`i + 2`, carrying the new status, for a data row `i` of its sheet whose first two cells
are `(quotation_no, String(rev))`; at most one write goes to the header sheet, no item row
is written twice, and after the writes every cell outside column D of a matching row
reads as before, in both sheets. -/
theorem status_update_frame (quotation_no rev status : JsVal)
    (values1 values2 : List (List String)) :
    (∀ w ∈ updateQuotationStatus quotation_no rev status values1 values2,
      w.column = 'D' ∧ w.value = status ∧
      ∃ i row, w.row = i + 2 ∧
        (if w.sheet = .items then values1 else values2).tail[i]? = some row ∧
        jsCell row 0 = quotation_no ∧ row[1]? = some rev.toStr) ∧
    ((updateQuotationStatus quotation_no rev status values1 values2).filter
      (fun w => w.sheet == .customers)).length ≤ 1 ∧
    (updateQuotationStatus quotation_no rev status values1 values2).Nodup ∧
    (∀ (s : SheetName) (r c : Nat),
      cellAtIndex (applyWrites s (if s = .items then values1 else values2)
          (updateQuotationStatus quotation_no rev status values1 values2)) r c
        ≠ cellAtIndex (if s = .items then values1 else values2) r c →
      c = 3 ∧ ∃ i row, r = i + 1 ∧
        (if s = .items then values1 else values2).tail[i]? = some row ∧
        jsCell row 0 = quotation_no ∧ row[1]? = some rev.toStr) := by
  have hall : ∀ w ∈ updateQuotationStatus quotation_no rev status values1 values2,
      w.column = 'D' ∧ w.value = status ∧
      ∃ i row, w.row = i + 2 ∧
        (if w.sheet = .items then values1 else values2).tail[i]? = some row ∧
        jsCell row 0 = quotation_no ∧ row[1]? = some rev.toStr := by
    intro w hw
    rcases mem_updateQuotationStatus.1 hw with ⟨i, hi, rfl⟩ | ⟨j, hj, rfl⟩
    · obtain ⟨row, hrow, hm⟩ := mem_updates1.1 hi
      exact ⟨rfl, rfl, i, row, rfl, by simpa using hrow, statusRowMatches_iff.1 hm⟩
    · obtain ⟨⟨row, hrow, hm⟩, _⟩ := findIndex_eq_some hj
      exact ⟨rfl, rfl, j, row, rfl, by simpa using hrow, statusRowMatches_iff.1 hm⟩
  refine ⟨hall, ?_, ?_, ?_⟩
  · unfold updateQuotationStatus
    simp only [List.filter_append, List.length_append]
    have h1 : List.filter (fun w => w.sheet == .customers)
        ((updates1 quotation_no rev values1.tail).map (fun rowIndex =>
          ({ sheet := .items, column := 'D', row := rowIndex + 2, value := status } :
            CellWrite))) = [] := by
      rw [List.filter_eq_nil_iff]
      intro w hw
      obtain ⟨i, _, rfl⟩ := List.mem_map.1 hw
      simp
    rw [h1]
    cases findIndex (statusRowMatches quotation_no rev) values2.tail with
    | none => simp
    | some j => simp
  · unfold updateQuotationStatus
    rw [List.nodup_append]
    refine ⟨?_, ?_, ?_⟩
    · refine (updates1_nodup quotation_no rev values1.tail).map ?_
      intro a b hab
      simp only [CellWrite.mk.injEq, true_and, and_true] at hab
      omega
    · cases findIndex (statusRowMatches quotation_no rev) values2.tail with
      | none => simp
      | some j => simp
    · intro w hw1 hw2
      obtain ⟨i, _, rfl⟩ := List.mem_map.1 hw1
      cases hf : findIndex (statusRowMatches quotation_no rev) values2.tail with
      | none => rw [hf] at hw2; simp at hw2
      | some j => rw [hf] at hw2; simp at hw2
  · intro s r c hne
    obtain ⟨w, hw, hr, hc⟩ := cellAtIndex_foldl_applyWrite _ _ r c hne
    obtain ⟨hw1, hws⟩ := List.mem_filter.1 hw
    have hs : w.sheet = s := by simpa using hws
    obtain ⟨hcol, _, i, row, hrow, hget, hm⟩ := hall w hw1
    rw [hs] at hget
    refine ⟨?_, i, row, by omega, hget, hm⟩
    rw [hc, hcol]; decide

/-! ## Category deletion -/

/-- The indices `deleteIndexes` collects, for rows counted from `k`. -/
theorem deleteIndexes_from_cons (name : Option String) (k : Nat) (r : List String)
    (rs : List (List String)) :
    (((r :: rs).enumFrom k).filter (fun p => p.2[2]? == name)).map (fun p => p.1 + 1)
      = (if r[2]? == name then [k + 1] else []) ++
        ((rs.enumFrom (k + 1)).filter (fun p => p.2[2]? == name)).map (fun p => p.1 + 1) := by
  simp only [List.enumFrom_cons, List.filter_cons]
  split <;> simp

theorem deleteIndexes_from_spec (name : Option String) (rs : List (List String)) :
    ∀ k, (∀ x ∈ ((rs.enumFrom k).filter (fun p => p.2[2]? == name)).map (fun p => p.1 + 1),
        k < x) ∧
      List.Sorted (· < ·)
        (((rs.enumFrom k).filter (fun p => p.2[2]? == name)).map (fun p => p.1 + 1)) := by
  induction rs with
  | nil => intro k; simp
  | cons r rs ih =>
    intro k
    rw [deleteIndexes_from_cons]
    obtain ⟨hgt, hs⟩ := ih (k + 1)
    constructor
    · intro x hx
      rcases List.mem_append.1 hx with h | h
      · split at h
        · simp at h; omega
        · simp at h
      · have := hgt x h; omega
    · split
      · simp only [List.singleton_append, List.sorted_cons]
        exact ⟨fun x hx => hgt x hx, hs⟩
      · simpa using hs

theorem deleteIndexes_sorted (name : Option String) (prodRows : List (List String)) :
    List.Sorted (· < ·) (deleteIndexes name prodRows) :=
  (deleteIndexes_from_spec name prodRows 0).2

theorem mem_deleteIndexes {name : Option String} {prodRows : List (List String)} {x : Nat} :
    x ∈ deleteIndexes name prodRows ↔
      ∃ i row, x = i + 1 ∧ prodRows[i]? = some row ∧ row[2]? = name := by
  simp only [deleteIndexes, List.mem_map, List.mem_filter, Prod.exists, beq_iff_eq]
  constructor
  · rintro ⟨i, row, ⟨hmem, hp⟩, rfl⟩
    have := List.mk_mem_enumFrom_iff_le_and_getElem?_sub.1 hmem
    exact ⟨i, row, rfl, by simpa using this.2, hp⟩
  · rintro ⟨i, row, rfl, hrow, hp⟩
    exact ⟨i, row, ⟨List.mk_mem_enumFrom_iff_le_and_getElem?_sub.2
      ⟨Nat.zero_le i, by simpa using hrow⟩, hp⟩, rfl⟩

theorem sortDescending_eq_reverse {xs : List Nat} (h : List.Sorted (· < ·) xs) :
    sortDescending xs = xs.reverse := by
  have h1 : List.Sorted (· ≥ ·) (sortDescending xs) := List.sorted_insertionSort _ xs
  have h2 : List.Sorted (· ≥ ·) xs.reverse := by
    unfold List.Sorted
    rw [List.pairwise_reverse]
    exact h.imp (fun hab => Nat.le_of_lt hab)
  have hp : List.Perm (sortDescending xs) xs.reverse :=
    (List.perm_insertionSort _ xs).trans (List.reverse_perm xs).symm
  exact List.eq_of_perm_of_sorted hp h1 h2

theorem deleteRequests_eq (name : Option String) (prodRows : List (List String)) :
    deleteRequests name prodRows
      = (deleteIndexes name prodRows).reverse.map (fun index =>
          ({ startIndex := index, endIndex := index + 1 } : DeleteRequest)) := by
  unfold deleteRequests
  rw [sortDescending_eq_reverse (deleteIndexes_sorted name prodRows)]
  split
  · rfl
  · rename_i h
    have : deleteIndexes name prodRows = [] := by
      apply List.length_eq_zero.1; omega
    simp [this]

theorem applyDelete_single (pre : List (List String)) (r : List String)
    (post : List (List String)) :
    applyDelete (pre ++ r :: post) { startIndex := pre.length, endIndex := pre.length + 1 }
      = pre ++ post := by
  simp [applyDelete, List.take_append_eq_append_take, List.drop_append_eq_append_drop]

/-- Deleting the planned rows from the last to the first leaves the rows that do not
match, below an untouched prefix. -/
theorem applyDeletes_from (name : Option String) (rs : List (List String)) :
    ∀ (k : Nat) (pre : List (List String)), pre.length = k + 1 →
      applyDeletes (pre ++ rs)
        ((((rs.enumFrom k).filter (fun p => p.2[2]? == name)).map (fun p => p.1 + 1)).reverse.map
          (fun index => ({ startIndex := index, endIndex := index + 1 } : DeleteRequest)))
        = pre ++ rs.filter (fun row => !(row[2]? == name)) := by
  induction rs with
  | nil => intro k pre _; simp [applyDeletes]
  | cons r rs ih =>
    intro k pre hpre
    rw [deleteIndexes_from_cons, List.reverse_append, List.map_append]
    unfold applyDeletes
    rw [List.foldl_append]
    have hih := ih (k + 1) (pre ++ [r]) (by simp [hpre])
    unfold applyDeletes at hih
    rw [List.append_assoc, List.singleton_append] at hih
    rw [hih]
    by_cases hm : (r[2]? == name) = true
    · simp only [hm, if_true, List.reverse_singleton, List.map_singleton, List.foldl_cons,
        List.foldl_nil, List.filter_cons, Bool.not_true, Bool.false_eq_true, if_false]
      rw [← hpre, List.append_assoc, List.singleton_append]
      exact applyDelete_single pre r _
    · have hm' : (r[2]? == name) = false := by simpa using hm
      simp [hm', List.filter_cons]

theorem deleteCategory_eq_some {category_id : String} {catValues prodValues : List (List String)}
    {o : DeleteOutcome} (h : deleteCategory category_id catValues prodValues = some o) :
    ∃ (i : Nat) (row : List String),
      findIndex (fun row => row[0]? == some category_id) catValues.tail = some i ∧
      catValues.tail[i]? = some row ∧
      o = { categoryRequests := [{ startIndex := i + 1, endIndex := i + 2 }]
            productRequests := deleteRequests row[1]? prodValues.tail
            deletedProducts := (deleteIndexes row[1]? prodValues.tail).length } := by
  unfold deleteCategory at h
  dsimp only at h
  cases hf : findIndex (fun row => row[0]? == some category_id) catValues.tail with
  | none => rw [hf] at h; simp at h
  | some i =>
    rw [hf] at h
    obtain ⟨⟨row, hrow, _⟩, _⟩ := findIndex_eq_some hf
    refine ⟨i, row, rfl, hrow, ?_⟩
    simp only [Option.some.injEq] at h
    rw [← h]
    simp [List.getD_eq_getElem?_getD, hrow]

theorem length_deleteIndexes (name : Option String) (rs : List (List String)) :
    ∀ k, (((rs.enumFrom k).filter (fun p => p.2[2]? == name)).map (fun p => p.1 + 1)).length
      = (rs.filter (fun row => row[2]? == name)).length := by
  induction rs with
  | nil => intro k; simp
  | cons r rs ih =>
    intro k
    rw [deleteIndexes_from_cons, List.length_append, ih (k + 1), List.filter_cons]
    split
    · simp; omega
    · simp

/-- C16. Cascade completeness on the product sheet: when the category exists, applying
the product delete requests in order, each to the sheet as the previous ones left it,
leaves the first row (the header) followed by exactly the product rows whose category
cell differs from the name of the deleted category, in their order; the reported
`deletedProducts` is the number of rows removed. -/
theorem cascade_completeness (category_id : String) (catValues prodValues : List (List String))
    (o : DeleteOutcome) (h : deleteCategory category_id catValues prodValues = some o) :
    ∃ (i : Nat) (row : List String),
      catValues.tail[i]? = some row ∧ row[0]? = some category_id ∧
      applyDeletes prodValues o.productRequests
        = prodValues.take 1 ++ prodValues.tail.filter (fun p => !(p[2]? == row[1]?)) ∧
      o.deletedProducts = (prodValues.tail.filter (fun p => p[2]? == row[1]?)).length ∧
      prodValues.length
        = (applyDeletes prodValues o.productRequests).length + o.deletedProducts := by
  obtain ⟨i, row, hf, hrow, rfl⟩ := deleteCategory_eq_some h
  obtain ⟨⟨row', hrow', hm⟩, _⟩ := findIndex_eq_some hf
  rw [hrow] at hrow'
  have hrr : row' = row := (Option.some.inj hrow').symm
  subst hrr
  have happly : applyDeletes prodValues (deleteRequests row'[1]? prodValues.tail)
      = prodValues.take 1 ++ prodValues.tail.filter (fun p => !(p[2]? == row'[1]?)) := by
    rw [deleteRequests_eq]
    cases prodValues with
    | nil => simp [deleteIndexes, applyDeletes]
    | cons hd rows =>
      have := applyDeletes_from row'[1]? rows 0 [hd] rfl
      simpa [deleteIndexes] using this
  have hlen : (deleteIndexes row'[1]? prodValues.tail).length
      = (prodValues.tail.filter (fun p => p[2]? == row'[1]?)).length :=
    length_deleteIndexes row'[1]? prodValues.tail 0
  refine ⟨i, row', hrow, by simpa using hm, happly, hlen, ?_⟩
  simp only [happly, hlen, List.length_append]
  cases prodValues with
  | nil => simp
  | cons hd rows =>
    have := List.length_eq_length_filter_add (l := rows) (fun p => p[2]? == row'[1]?)
    simp only [List.take_succ_cons, List.take_zero, List.length_singleton, List.tail_cons,
      List.length_cons, List.length_nil]
    omega

/-- C16, at the product sheet with Pipes at data indices 1 and 3: deleting `c1` leaves the
header and the products p0, p2, p4, and reports 2. -/
theorem cascade_completeness_witness :
    ∃ (i : Nat) (row : List String),
      categorySheet.tail[i]? = some row ∧ row[0]? = some "c1" ∧
      applyDeletes productSheet pipesDeletion.productRequests
        = productSheet.take 1 ++ productSheet.tail.filter (fun p => !(p[2]? == row[1]?)) ∧
      pipesDeletion.deletedProducts
        = (productSheet.tail.filter (fun p => p[2]? == row[1]?)).length ∧
      productSheet.length
        = (applyDeletes productSheet pipesDeletion.productRequests).length
          + pipesDeletion.deletedProducts :=
  cascade_completeness "c1" categorySheet productSheet pipesDeletion (by decide)

/-- C17. Descending delete plan: the product delete requests are single-row ranges
`[i + 1, i + 2)`, one for each data index `i` of the product sheet whose category cell is
the name of the deleted category and each such index once, in strictly decreasing order
of the start index. -/
theorem descending_delete_plan (category_id : String)
    (catValues prodValues : List (List String)) (o : DeleteOutcome)
    (h : deleteCategory category_id catValues prodValues = some o) :
    ∃ (i : Nat) (row : List String),
      catValues.tail[i]? = some row ∧ row[0]? = some category_id ∧
      (∀ r ∈ o.productRequests, r.endIndex = r.startIndex + 1 ∧
        ∃ (j : Nat) (p : List String),
          r.startIndex = j + 1 ∧ prodValues.tail[j]? = some p ∧ p[2]? = row[1]?) ∧
      (∀ (j : Nat) (p : List String), prodValues.tail[j]? = some p → p[2]? = row[1]? →
        o.productRequests.count { startIndex := j + 1, endIndex := j + 2 } = 1) ∧
      List.Sorted (· > ·) (o.productRequests.map (fun r => r.startIndex)) := by
  obtain ⟨i, row, hf, hrow, rfl⟩ := deleteCategory_eq_some h
  obtain ⟨⟨row', hrow', hm⟩, _⟩ := findIndex_eq_some hf
  rw [hrow] at hrow'
  have hrr : row' = row := (Option.some.inj hrow').symm
  subst hrr
  have hsorted := deleteIndexes_sorted row'[1]? prodValues.tail
  refine ⟨i, row', hrow, by simpa using hm, ?_, ?_, ?_⟩
  · intro r hr
    simp only [deleteRequests_eq, List.mem_map, List.mem_reverse] at hr
    obtain ⟨x, hx, rfl⟩ := hr
    obtain ⟨j, p, hj, hp, hc⟩ := mem_deleteIndexes.1 hx
    exact ⟨rfl, j, p, hj, hp, hc⟩
  · intro j p hp hc
    simp only [deleteRequests_eq]
    apply List.count_eq_one_of_mem
    · refine (List.nodup_reverse.2 hsorted.nodup).map ?_
      intro a b hab
      simp only [DeleteRequest.mk.injEq] at hab
      exact hab.1
    · simp only [List.mem_map, List.mem_reverse]
      exact ⟨j + 1, mem_deleteIndexes.2 ⟨j, p, rfl, hp, hc⟩, rfl⟩
  · simp only [deleteRequests_eq, List.map_map]
    have : (List.map ((fun r => r.startIndex) ∘ fun index =>
        ({ startIndex := index, endIndex := index + 1 } : DeleteRequest))
        (deleteIndexes row'[1]? prodValues.tail).reverse)
        = (deleteIndexes row'[1]? prodValues.tail).reverse := by
      simp [Function.comp_def]
    rw [this]
    unfold List.Sorted
    rw [List.pairwise_reverse]
    exact hsorted

/-- C17, at the product sheet with Pipes at data indices 1 and 3: the plan is the range
of row 4, then the range of row 2. -/
theorem descending_delete_plan_witness :
    ∃ (i : Nat) (row : List String),
      categorySheet.tail[i]? = some row ∧ row[0]? = some "c1" ∧
      (∀ r ∈ pipesDeletion.productRequests, r.endIndex = r.startIndex + 1 ∧
        ∃ (j : Nat) (p : List String),
          r.startIndex = j + 1 ∧ productSheet.tail[j]? = some p ∧ p[2]? = row[1]?) ∧
      (∀ (j : Nat) (p : List String), productSheet.tail[j]? = some p → p[2]? = row[1]? →
        pipesDeletion.productRequests.count { startIndex := j + 1, endIndex := j + 2 } = 1) ∧
      List.Sorted (· > ·) (pipesDeletion.productRequests.map (fun r => r.startIndex)) :=
  descending_delete_plan "c1" categorySheet productSheet pipesDeletion (by decide)

/-- C20. Category root deletion: the handler replies not-found, with no delete request for
either sheet, exactly when no data row of the category sheet has `category_id` in its
first cell. Otherwise the category sheet gets one request, the single-row range
`[i + 1, i + 2)` for the first data row `i` with that id, and applying it removes that
row and no other. -/
theorem category_root_deletion (category_id : String)
    (catValues prodValues : List (List String)) :
    (deleteCategory category_id catValues prodValues = none ↔
      ∀ row ∈ catValues.tail, row[0]? ≠ some category_id) ∧
    (∀ o, deleteCategory category_id catValues prodValues = some o →
      ∃ (i : Nat) (row : List String),
        catValues.tail[i]? = some row ∧ row[0]? = some category_id ∧
        (∀ (j : Nat) (other : List String), j < i → catValues.tail[j]? = some other →
          other[0]? ≠ some category_id) ∧
        o.categoryRequests = [{ startIndex := i + 1, endIndex := i + 2 }] ∧
        applyDeletes catValues o.categoryRequests = catValues.eraseIdx (i + 1)) := by
  constructor
  · constructor
    · intro hnone row hrow
      have hf : findIndex (fun row => row[0]? == some category_id) catValues.tail = none := by
        cases hf : findIndex (fun row => row[0]? == some category_id) catValues.tail with
        | none => rfl
        | some i =>
          unfold deleteCategory at hnone
          dsimp only at hnone
          rw [hf] at hnone
          simp at hnone
      have := findIndex_eq_none.1 hf row hrow
      simpa using this
    · intro hall
      have hf : findIndex (fun row => row[0]? == some category_id) catValues.tail = none :=
        findIndex_eq_none.2 (fun row hrow => by simpa using hall row hrow)
      unfold deleteCategory
      dsimp only
      rw [hf]
  · intro o ho
    obtain ⟨i, row, hf, hrow, rfl⟩ := deleteCategory_eq_some ho
    obtain ⟨⟨row', hrow', hm⟩, hlt⟩ := findIndex_eq_some hf
    rw [hrow] at hrow'
    have hrr : row' = row := (Option.some.inj hrow').symm
    subst hrr
    refine ⟨i, row', hrow, by simpa using hm, ?_, rfl, ?_⟩
    · intro j other hj hother
      have := hlt j hj other hother
      simpa using this
    · simp [applyDeletes, applyDelete, List.eraseIdx_eq_take_drop_succ]

/-! ## `getRecords` -/

theorem foldl_objSet_of_not_mem (es : List (String × String)) :
    ∀ (o : JsObject) (name : String), name ∉ es.map (fun e => e.1) →
      (es.foldl (fun o e => objSet o e.1 e.2) o) name = o name := by
  induction es with
  | nil => intro o name _; rfl
  | cons e es ih =>
    intro o name h
    simp only [List.map_cons, List.mem_cons, not_or] at h
    rw [List.foldl_cons, ih _ name h.2]
    simp [objSet, h.1]

theorem foldl_objSet_isSome (es : List (String × String)) :
    ∀ (o : JsObject) (name : String), name ∈ es.map (fun e => e.1) →
      ((es.foldl (fun o e => objSet o e.1 e.2) o) name).isSome = true := by
  induction es with
  | nil => intro o name h; simp at h
  | cons e es ih =>
    intro o name h
    rw [List.foldl_cons]
    by_cases hin : name ∈ es.map (fun e => e.1)
    · exact ih _ name hin
    · rw [foldl_objSet_of_not_mem es _ name hin]
      simp only [List.map_cons, List.mem_cons] at h
      rcases h with h | h
      · simp [objSet, h]
      · exact absurd h hin

theorem fromEntries_last (a b : List (String × String)) (name v : String)
    (h : name ∉ b.map (fun e => e.1)) : fromEntries (a ++ (name, v) :: b) name = some v := by
  unfold fromEntries
  rw [List.foldl_append, List.foldl_cons, foldl_objSet_of_not_mem b _ name h]
  simp [objSet]

theorem entriesFrom_keys (row : List String) (header : List String) :
    ∀ k, (entriesFrom k row header).map (fun e => e.1) = header := by
  induction header with
  | nil => intro k; rfl
  | cons h hs ih => intro k; simp [entriesFrom, ih]

theorem entriesFrom_append (row : List String) (a b : List String) :
    ∀ k, entriesFrom k row (a ++ b)
      = entriesFrom k row a ++ entriesFrom (k + a.length) row b := by
  induction a with
  | nil => intro k; simp [entriesFrom]
  | cons h hs ih =>
    intro k
    have e : k + 1 + hs.length = k + (hs.length + 1) := by omega
    show (h, cellOrEmpty row k) :: entriesFrom (k + 1) row (hs ++ b)
      = (h, cellOrEmpty row k) :: entriesFrom (k + 1) row hs
        ++ entriesFrom (k + (hs.length + 1)) row b
    rw [ih (k + 1), e]
    rfl

/-- C18, as stated, fails when a header name repeats: under the header `a, a` the row
`x, y` projects to a record whose value for `a` is `y`, not the row's cell 0. -/
theorem repeated_header_name_keeps_last :
    (getRecords [["a", "a"], ["x", "y"]]).map (fun record => record "a") = [some "y"] ∧
    cellOrEmpty ["x", "y"] 0 = "x" := by
  decide

/-- C18, amended. There is one record per data row, in order, and every header name is
a key of every record. The value under the name of column `i` is the row's cell `i`, or
the empty string when the row has no such cell, provided no later column carries the same
name, so for every column when the header names are pairwise distinct. -/
theorem getRecords_spec (header : List String) (rows : List (List String)) :
    (getRecords (header :: rows)).length = rows.length ∧
    (∀ (j : Nat) (row : List String), rows[j]? = some row →
      ∃ record, (getRecords (header :: rows))[j]? = some record ∧
        (∀ name ∈ header, (record name).isSome = true) ∧
        (∀ (i : Nat) (name : String), header[i]? = some name →
          (∀ (k : Nat) (other : String), i < k → header[k]? = some other → other ≠ name) →
          record name = some (cellOrEmpty row i)) ∧
        (header.Nodup → ∀ (i : Nat) (name : String), header[i]? = some name →
          record name = some (cellOrEmpty row i))) ∧
    (∀ (row : List String) (i : Nat),
      (∀ s, row[i]? = some s → cellOrEmpty row i = s) ∧
      (row[i]? = none → cellOrEmpty row i = "")) := by
  have hlast : ∀ (row : List String) (i : Nat) (name : String), header[i]? = some name →
      (∀ (k : Nat) (other : String), i < k → header[k]? = some other → other ≠ name) →
      fromEntries (entriesFrom 0 row header) name = some (cellOrEmpty row i) := by
    intro row i name hi hlater
    obtain ⟨hlt, hget⟩ := List.getElem?_eq_some_iff.1 hi
    have hsplit : header = header.take i ++ name :: header.drop (i + 1) := by
      rw [← hget, ← List.drop_eq_getElem_cons hlt, List.take_append_drop]
    have hlen : (header.take i).length = i := by
      rw [List.length_take]; omega
    have hent : entriesFrom 0 row header
        = entriesFrom 0 row (header.take i) ++
          (name, cellOrEmpty row i) :: entriesFrom (i + 1) row (header.drop (i + 1)) := by
      conv_lhs => rw [hsplit]
      rw [entriesFrom_append, hlen]
      simp [entriesFrom]
    rw [hent]
    apply fromEntries_last
    rw [entriesFrom_keys]
    intro hmem
    obtain ⟨k, hk⟩ := List.mem_iff_getElem?.1 hmem
    rw [List.getElem?_drop] at hk
    exact hlater (i + 1 + k) name (by omega) hk rfl
  refine ⟨by simp [getRecords], ?_, ?_⟩
  · intro j row hj
    refine ⟨fromEntries (entriesFrom 0 row header), ?_, ?_, hlast row, ?_⟩
    · simp [getRecords, hj]
    · intro name hname
      unfold fromEntries
      apply foldl_objSet_isSome
      rw [entriesFrom_keys]; exact hname
    · intro hnodup i name hi
      apply hlast row i name hi
      intro k other hik hk heq
      subst heq
      obtain ⟨hi1, hi2⟩ := List.getElem?_eq_some_iff.1 hi
      obtain ⟨hk1, hk2⟩ := List.getElem?_eq_some_iff.1 hk
      have := (List.Nodup.getElem_inj_iff hnodup).1 (hi2.trans hk2.symm)
      omega
  · intro row i
    constructor
    · intro s hs; simp [cellOrEmpty, hs]
    · intro hn; simp [cellOrEmpty, hn]

/-! ## The revision listing -/

theorem uniqueOf_foldl (xs : List Int) :
    ∀ acc : List Int, acc.Nodup →
      (xs.foldl (fun acc x => if x ∈ acc then acc else acc ++ [x]) acc).Nodup ∧
      ∀ v, v ∈ xs.foldl (fun acc x => if x ∈ acc then acc else acc ++ [x]) acc ↔
        v ∈ acc ∨ v ∈ xs := by
  induction xs with
  | nil => intro acc h; simp [h]
  | cons x xs ih =>
    intro acc hacc
    rw [List.foldl_cons]
    by_cases hx : x ∈ acc
    · rw [if_pos hx]
      obtain ⟨h1, h2⟩ := ih acc hacc
      refine ⟨h1, fun v => ?_⟩
      rw [h2 v]
      constructor
      · rintro (h | h)
        · exact Or.inl h
        · exact Or.inr (List.mem_cons_of_mem _ h)
      · rintro (h | h)
        · exact Or.inl h
        · rcases List.mem_cons.1 h with h | h
          · subst h; exact Or.inl hx
          · exact Or.inr h
    · rw [if_neg hx]
      have hn : (acc ++ [x]).Nodup := by
        rw [List.nodup_append]
        refine ⟨hacc, List.nodup_singleton x, ?_⟩
        intro a ha hb
        simp only [List.mem_singleton] at hb
        subst hb; exact hx ha
      obtain ⟨h1, h2⟩ := ih (acc ++ [x]) hn
      refine ⟨h1, fun v => ?_⟩
      rw [h2 v]
      simp only [List.mem_append, List.mem_singleton, List.mem_cons, List.not_mem_nil,
        or_false]
      constructor
      · rintro ((h | h) | h)
        · exact Or.inl h
        · exact Or.inr (Or.inl h)
        · exact Or.inr (Or.inr h)
      · rintro (h | h | h)
        · exact Or.inl (Or.inl h)
        · exact Or.inl (Or.inr h)
        · exact Or.inr h

theorem uniqueOf_spec (xs : List Int) :
    (uniqueOf xs).Nodup ∧ ∀ v, v ∈ uniqueOf xs ↔ v ∈ xs := by
  obtain ⟨h1, h2⟩ := uniqueOf_foldl xs [] List.nodup_nil
  exact ⟨h1, fun v => by rw [uniqueOf, h2 v]; simp⟩

theorem sortAscending_spec {xs : List Int} (h : xs.Nodup) :
    List.Sorted (· < ·) (sortAscending xs) ∧ ∀ v, v ∈ sortAscending xs ↔ v ∈ xs := by
  have hs : List.Sorted (· ≤ ·) (sortAscending xs) := List.sorted_insertionSort _ xs
  have hp : List.Perm (sortAscending xs) xs := List.perm_insertionSort _ xs
  exact ⟨hs.lt_of_le (hp.nodup_iff.2 h), fun v => hp.mem_iff⟩

/-- C19, as stated, fails at revision 0: for the quotation stored with its original
(empty rev cell, which `POST /add_quotation` reads as revision 0) and its revision 1,
the listing is `[1]`. -/
theorem revisions_omit_rev_zero :
    revisions "QT2501T-0001" twoRevisionTable = [1] ∧
    (∃ r ∈ twoRevisionTable, r.quotation_no = "QT2501T-0001" ∧ revOf r.rev = some 0) := by
  decide

/-- C19, amended. The listing is strictly ascending, hence without repeats, and holds
exactly the integers `parseInt` reads from the rev cells of the item rows under the
quotation_no. The empty cell of revision 0 parses to no number and is not listed; the
cell of a revision from 1 on parses to its number. -/
theorem revisions_spec (base : String) (items : List ItemRecord) :
    List.Sorted (· < ·) (revisions base items) ∧
    (∀ v, v ∈ revisions base items ↔
      ∃ r ∈ items, r.quotation_no = base ∧ parseInt r.rev = some v) ∧
    cellText (revCell 0) = "" ∧
    parseInt "" = none ∧
    (∀ n : Int, n ≠ 0 → parseInt (cellText (revCell n)) = some n) := by
  have hu := uniqueOf_spec
    (((items.filter (fun r => r.quotation_no == base)).map (fun r => parseInt r.rev)).filterMap id)
  obtain ⟨hsorted, hmem⟩ := sortAscending_spec hu.1
  refine ⟨hsorted, ?_, rfl, by decide, ?_⟩
  · intro v
    show v ∈ sortAscending (uniqueOf _) ↔ _
    rw [hmem v, hu.2 v]
    simp only [List.mem_filterMap, List.mem_map, List.mem_filter, beq_iff_eq, id_eq,
      exists_eq_right]
    constructor
    · rintro ⟨r, ⟨hr, hq⟩, hv⟩; exact ⟨r, hr, hq, hv⟩
    · rintro ⟨r, hr, hq, hv⟩; exact ⟨r, ⟨hr, hq⟩, hv⟩
  · intro n hn
    simp only [revCell, hn, if_false, cellText]
    exact parseInt_toString n

/-! ## The category update -/

/-- C21. Whole-table update plan: the replacement table is the original header followed
by one row per data row, in order; a data row whose first cell is not `category_id` is
carried over as it is, and a data row whose first cell is `category_id` is replaced by
`[category_id, name, icon]`. -/
theorem update_category_plan (category_id : String) (name icon : JsVal)
    (values : List (List String)) :
    (updateCategory category_id name icon values).length = values.tail.length + 1 ∧
    (updateCategory category_id name icon values)[0]? = some (values.head?.map rowValues) ∧
    (∀ (i : Nat) (row : List String), values.tail[i]? = some row →
      (row[0]? ≠ some category_id →
        (updateCategory category_id name icon values)[i + 1]? = some (some (rowValues row))) ∧
      (row[0]? = some category_id →
        (updateCategory category_id name icon values)[i + 1]?
          = some (some [.str category_id, name, icon]))) ∧
    (∀ row : List String, (rowValues row).length = row.length ∧
      ∀ (c : Nat) (s : String), row[c]? = some s → (rowValues row)[c]? = some (.str s)) := by
  refine ⟨by simp [updateCategory, updatedRows], by simp [updateCategory], ?_, ?_⟩
  · intro i row hrow
    have hget : (updateCategory category_id name icon values)[i + 1]?
        = some (some (if row[0]? == some category_id then [.str category_id, name, icon]
            else rowValues row)) := by
      have hrow' : values[i + 1]? = some row := by simpa using hrow
      simp [updateCategory, updatedRows, hrow']
    constructor
    · intro hne
      have : (row[0]? == some category_id) = false := by simpa using hne
      rw [hget, this]; rfl
    · intro heq
      have : (row[0]? == some category_id) = true := by simpa using heq
      rw [hget, this]; rfl
  · intro row
    refine ⟨by simp [rowValues], ?_⟩
    intro c s hs
    simp [rowValues, hs]

end Quotation
